import Mathlib

/-!
# Verification of the YouTrack open-issue sync routine

Shallow embedding of `crates/server/src/integrations/youtrack_open.rs`
(plus the thin wiring in `routes/integrations.rs`), together with proofs
of the specification claims about it.

Modelling conventions:
* Rust `String`/`&str` become Lean `String`; byte-level ASCII operations
  are modelled on the character list (`String.data`), which is faithful
  because UTF-8 encoding is injective and the ASCII range is closed under
  `to_ascii_lowercase`.
* `serde_json::Value` is modelled by `JsonValue` with the constructors the
  routine can distinguish: a JSON string, a JSON object, and `other` for
  every shape on which both `Value::get(&str)` and `Value::as_str` return
  `None` (numbers, booleans, arrays, null is already `Option.none`).
* The `url::Url` type is modelled by a record of its components together
  with a parser for the hierarchical `scheme://host/path?query#fragment`
  shape (ASCII input, no percent-encoding, no `.`/`..` normalisation,
  no user-info handling); this covers every URL the routine and the
  claims exercise.
* The SQLite-backed task store lives behind `Task::find_by_project_id_and_title_prefix`
  and `Task::create` in the `db` crate, which is not part of the sources;
  those two capabilities are modelled from the spec (see `storeFind`,
  `storeCreate`).
* The HTTP tracker is modelled as a function from the `$skip` offset to a
  response (`Except` for a failed request / undecodable body); the
  unbounded pagination loop takes a fuel parameter, with fuel exhaustion
  (`Option.none`) standing for divergence of the source loop.
-/

set_option linter.unusedVariables false

namespace VK

/-! ## ASCII case-insensitive comparison

Models Rust `str::eq_ignore_ascii_case`: byte-wise comparison after
ASCII-lowercasing.  `Char.toLower` in Lean core lowers exactly the ASCII
range, matching `u8::to_ascii_lowercase`. -/

def eqIgnoreAsciiCase (a b : String) : Bool :=
  a.data.map Char.toLower == b.data.map Char.toLower

/-! ## JSON values and YouTrack issues -/

/-- Model of `serde_json::Value` restricted to the observations made by the
routine: `get("name")` (object member lookup) and `as_str`. -/
inductive JsonValue where
  | str (s : String)
  | obj (fields : List (String × JsonValue))
  | other
deriving Repr

/-- Model of `serde_json::Value::get` with a string key: member lookup on
objects, `none` on every other shape. -/
def JsonValue.get (v : JsonValue) (key : String) : Option JsonValue :=
  match v with
  | .obj fields => (fields.find? (fun p => p.1 == key)).map (fun p => p.2)
  | _ => none

/-- Model of `serde_json::Value::as_str`. -/
def JsonValue.asStr : JsonValue → Option String
  | .str s => some s
  | _ => none

/-- `YouTrackCustomField` from the source: a field name and an optional
JSON value. -/
structure YouTrackCustomField where
  name : String
  value : Option JsonValue
deriving Repr

/-- `YouTrackIssue` from the source. -/
structure YouTrackIssue where
  id_readable : String
  summary : String
  description : Option String
  custom_fields : List YouTrackCustomField
deriving Repr

/-- `youtrack_state_value` from the source: first custom field whose name
matches `state_field` ASCII-case-insensitively; prefer the string under the
value's `name` member, else the value itself as a string. -/
def youtrack_state_value (issue : YouTrackIssue) (state_field : String) :
    Option String :=
  match issue.custom_fields.find? (fun f => eqIgnoreAsciiCase f.name state_field) with
  | none => none
  | some field =>
    match field.value with
    | none => none
    | some value =>
      match (value.get "name").bind JsonValue.asStr with
      | some name => some name
      | none => value.asStr

/-- `is_open_issue` from the source (`Option::is_some_and` inlined). -/
def is_open_issue (issue : YouTrackIssue) (state_field open_value : String) :
    Bool :=
  match youtrack_state_value issue state_field with
  | some v => eqIgnoreAsciiCase v open_value
  | none => false

/-- Spec-side value resolution, written from the words of claim C2: the
value's `name` sub-field when the value is a structured object with one,
else the value itself when it is a plain string, else absent — kept only
when the resolution is a string. -/
def claimResolvedString (v : JsonValue) : Option String :=
  match v with
  | .obj fields =>
    match fields.find? (fun p => p.1 == "name") with
    | some (_, JsonValue.str s) => some s
    | some _ => none
    | none => none
  | .str s => some s
  | .other => none

theorem claimResolved_eq_code (v : JsonValue) :
    (match (v.get "name").bind JsonValue.asStr with
     | some name => some name
     | none => v.asStr) = claimResolvedString v := by
  cases v with
  | str s => rfl
  | other => rfl
  | obj fields =>
    simp only [JsonValue.get, claimResolvedString]
    cases hfind : fields.find? (fun p => p.1 == "name") with
    | none => rfl
    | some p =>
      obtain ⟨k, w⟩ := p
      cases w <;> rfl

theorem state_value_eq_claimResolved (issue : YouTrackIssue) (sf : String) :
    youtrack_state_value issue sf =
      (issue.custom_fields.find? (fun f => eqIgnoreAsciiCase f.name sf)).bind
        (fun field => field.value.bind claimResolvedString) := by
  unfold youtrack_state_value
  cases hf : issue.custom_fields.find? (fun f => eqIgnoreAsciiCase f.name sf) with
  | none => rfl
  | some field =>
    dsimp only
    cases hv : field.value with
    | none => simp [hv]
    | some v => simpa [hv] using claimResolved_eq_code v

/-- C2: `is_open_issue` returns true iff the first custom field whose name
equals the state-field name case-insensitively exists, its value resolves to
a string (the `name` sub-field of a structured object, else the plain
string, else absent), and that string equals the open-value name
case-insensitively; otherwise false. -/
theorem C2_is_open_issue_characterisation (issue : YouTrackIssue) (sf ov : String) :
    is_open_issue issue sf ov = true ↔
      ∃ f, issue.custom_fields.find? (fun g => eqIgnoreAsciiCase g.name sf) = some f ∧
        ∃ v s, f.value = some v ∧ claimResolvedString v = some s ∧
          eqIgnoreAsciiCase s ov = true := by
  unfold is_open_issue
  rw [state_value_eq_claimResolved]
  cases hf : issue.custom_fields.find? (fun g => eqIgnoreAsciiCase g.name sf) with
  | none => simp
  | some field =>
    cases hv : field.value with
    | none => simp [hv]
    | some v =>
      cases hr : claimResolvedString v with
      | none => simp [hv, hr]
      | some s => simp [hv, hr]

/-! ## URL model

Models `url::Url` by its components, for the hierarchical
`scheme://host/path?query#fragment` shape (see the header comment for the
modelled subset).  `asStr` is `Url::as_str`. -/

structure Url where
  scheme : String
  host : String
  path : String
  query : Option String
  fragment : Option String
deriving Repr, DecidableEq

def Url.asStr (u : Url) : String :=
  u.scheme ++ "://" ++ u.host ++ u.path ++
    (match u.query with | some q => "?" ++ q | none => "") ++
    (match u.fragment with | some f => "#" ++ f | none => "")

/-- Splits a character list at the first literal occurrence of `"://"`. -/
def splitSchemeSep : List Char → Option (List Char × List Char)
  | [] => none
  | c :: rest =>
    if c = ':' ∧ rest.take 2 = ['/', '/'] then some ([], rest.drop 2)
    else
      match splitSchemeSep rest with
      | some (a, b) => some (c :: a, b)
      | none => none

/-- Splits a character list at the first occurrence of `sep`: returns the
part before it and, when `sep` occurs, the part after it. -/
def splitAtFirst (sep : Char) : List Char → List Char × Option (List Char)
  | [] => ([], none)
  | c :: rest =>
    if c = sep then ([], some rest)
    else
      match splitAtFirst sep rest with
      | (a, b) => (c :: a, b)

/-- Model of `Url::parse` on the hierarchical subset: requires a non-empty
all-ASCII-alphabetic scheme, `"://"`, a non-empty host, then optional
`/path`, `?query`, `#fragment` (fragment split first, then query, then
path, as in the URL grammar).  Everything outside this subset is a parse
failure, which the routine under verification treats the same way as the
`url` crate failures it stands for. -/
def Url.parse (s : String) : Option Url :=
  match splitSchemeSep s.data with
  | none => none
  | some (schemeCs, rest) =>
    if schemeCs.isEmpty then none
    else if ¬ schemeCs.all (fun c => c.isAlpha) then none
    else if (splitAtFirst '/' (splitAtFirst '?' (splitAtFirst '#' rest).1).1).1.isEmpty
    then none
    else
      some { scheme := String.mk schemeCs
             host := String.mk
               (splitAtFirst '/' (splitAtFirst '?' (splitAtFirst '#' rest).1).1).1
             path :=
               match (splitAtFirst '/' (splitAtFirst '?' (splitAtFirst '#' rest).1).1).2 with
               | none => "/"
               | some p => String.mk ('/' :: p)
             query := (splitAtFirst '?' (splitAtFirst '#' rest).1).2.map String.mk
             fragment := (splitAtFirst '#' rest).2.map String.mk }

/-- The part of a path up to and including its last `'/'`. -/
def lastSlashTrunc (p : String) : String :=
  String.mk ((p.data.reverse.dropWhile (fun c => c ≠ '/')).reverse)

/-- Rust `str::ends_with('/')` on the character level. -/
def endsWithSlash (s : String) : Bool :=
  s.data.getLast? == some '/'

/-- Splitting a character list on every occurrence of `c` (Rust
`str::split(char)`): always returns at least one (possibly empty) part. -/
def splitListOn (c : Char) : List Char → List (List Char)
  | [] => [[]]
  | x :: xs =>
    if x = c then [] :: splitListOn c xs
    else
      match splitListOn c xs with
      | [] => [[x]]
      | h :: t => (x :: h) :: t

/-- Model of `Url::join` for the uses in the source: the argument is a
relative path reference (no scheme, no authority, no leading `'/'`, no
query/fragment, no `.`/`..` segments), so RFC 3986 resolution replaces the
base path's last segment and drops query and fragment.  `Url::join` cannot
fail on a hierarchical base, so the model is total. -/
def Url.join (u : Url) (rel : String) : Url :=
  { u with path := lastSlashTrunc u.path ++ rel, query := none, fragment := none }

/-- `issue_title_prefix` from the source: `"[" + idReadable + "] "`. -/
def issue_title_prefix (issue_id_readable : String) : String :=
  "[" ++ issue_id_readable ++ "] "

/-- `issue_url` from the source: join the base URL with
`issue/{idReadable}`. -/
def issue_url (youtrack_base : Url) (issue_id_readable : String) : Url :=
  youtrack_base.join ("issue/" ++ issue_id_readable)

/-- `normalize_base_url` from the source: if the serialized URL does not
end with `'/'`, reparse it with a trailing `'/'` appended. -/
def normalize_base_url (base : Url) : Option Url :=
  if endsWithSlash base.asStr then some base
  else Url.parse (base.asStr ++ "/")

/-- `Url::path_segments` for hierarchical URLs: the path after the leading
`'/'`, split on `'/'` (keeping empty segments).  On the modelled subset the
path always starts with `'/'`, so the `unwrap_or_default` branch of the
source is never taken. -/
def path_segments (u : Url) : List String :=
  (splitListOn '/' (u.path.data.drop 1)).map String.mk

/-- Rust `[&str]::join("/")`, used for the prefix path. -/
def joinSegs : List String → String
  | [] => ""
  | [s] => s
  | s :: rest => s ++ "/" ++ joinSegs rest

/-- `parse_board_url` from the source: find the first path segment equal to
`"agiles"` case-insensitively, take the two segments after it as agile and
sprint ids, and rebuild the base from everything before it with query and
fragment stripped. -/
def parse_board_url (board_url : String) : Option (Url × String × String) :=
  match Url.parse board_url with
  | none => none
  | some url =>
    let segments := path_segments url
    match segments.findIdx? (fun s => eqIgnoreAsciiCase s "agiles") with
    | none => none
    | some agilesIndex =>
      match segments[agilesIndex + 1]? with
      | none => none
      | some agileId =>
        match segments[agilesIndex + 2]? with
        | none => none
        | some sprintId =>
          let preSegs := segments.take agilesIndex
          let prePath :=
            if preSegs.isEmpty then "/"
            else "/" ++ joinSegs preSegs ++ "/"
          let base : Url :=
            { url with path := prePath, query := none, fragment := none }
          match normalize_base_url base with
          | none => none
          | some nbase => some (nbase, agileId, sprintId)

/-! ## Tracker client: paginated fetch

The HTTP tracker is a function `page` from the `$skip` query parameter to
the response for `GET {base}api/agiles/{agileId}/sprints/{sprintId}/issues`
with that `$skip` and `$top = 100`: `Except.error` models a transport
error, a non-success status, or an undecodable body; `Except.ok` models a
decoded issue page.  `fuel` bounds the number of loop iterations; the
`Option.none` result models divergence of the unbounded source loop (a
tracker that answers full pages forever).  Besides the collected issues
the model returns the list of requested `$skip` values in request order,
which is what the source loop observably sends. -/

def fetch_go (page : Nat → Except String (List YouTrackIssue)) (top : Nat) :
    Nat → Nat → Option (Except String (List YouTrackIssue)) × List Nat
  | 0, _ => (none, [])
  | fuel + 1, skip =>
    match page skip with
    | .error e => (some (.error e), [skip])
    | .ok issues =>
      if issues.length < top then (some (.ok issues), [skip])
      else
        match fetch_go page top fuel (skip + top) with
        | (some (.ok rest), log) => (some (.ok (issues ++ rest)), skip :: log)
        | (other, log) => (other, skip :: log)

/-- `fetch_sprint_issues` from the source: `$skip` starts at 0, `$top` is
fixed at 100. -/
def fetch_sprint_issues (page : Nat → Except String (List YouTrackIssue))
    (fuel : Nat) : Option (Except String (List YouTrackIssue)) × List Nat :=
  fetch_go page 100 fuel 0

/-! ## Task store

`Task::find_by_project_id_and_title_prefix` and `Task::create` live in the
`db` crate, which is not part of the given sources; they are modelled from
the spec (§6 Task store). -/

inductive TaskStatus where
  | todo
  | inprogress
  | inreview
  | done
  | cancelled
deriving Repr, DecidableEq

/-- Task record from the spec data model: project id, title, optional
description, status, plus a store-assigned unique id (UUIDs are modelled
by naturals). -/
structure Task where
  id : Nat
  project_id : Nat
  title : String
  description : Option String
  status : TaskStatus
deriving Repr, DecidableEq

/-- `CreateTask` payload from the source (`parent_workspace_id`,
`image_ids`, `shared_task_id` are always set to `None` by the routine). -/
structure CreateTask where
  project_id : Nat
  title : String
  description : Option String
  status : Option TaskStatus
  parent_workspace_id : Option Nat
  image_ids : Option (List Nat)
  shared_task_id : Option Nat
deriving Repr, DecidableEq

/-- The task store: the tasks in insertion order plus a counter supplying
fresh unique ids. -/
structure Store where
  tasks : List Task
  nextId : Nat
deriving Repr, DecidableEq

/-- Modelled from the spec: `Task::find_by_project_id_and_title_prefix` —
"find a task in a given project whose title has a given prefix, returning
at most one match or none".  The model returns the first match in
insertion order; the routine only observes whether a match exists.
"Title has the given prefix" is character-level prefix matching. -/
def storeFind (s : Store) (pid : Nat) (pfx : String) : Option Task :=
  s.tasks.find? (fun t => t.project_id == pid && pfx.data.isPrefixOf t.title.data)

/-- Modelled from the spec: `Task::create` — "create a task given project
id, title, optional description, status, and a fresh unique identifier".
The created task is appended to the store. -/
def storeCreate (s : Store) (ct : CreateTask) : Task × Store :=
  let t : Task :=
    { id := s.nextId
      project_id := ct.project_id
      title := ct.title
      description := ct.description
      status := ct.status.getD TaskStatus.todo }
  (t, { tasks := s.tasks ++ [t], nextId := s.nextId + 1 })

/-! ## Sync orchestrator -/

/-- `SyncSummary` from the source. -/
structure SyncSummary where
  open_issues_total : Nat
  created : Nat
  skipped_existing : Nat
  dry_run : Bool
  created_titles : List String
deriving Repr, DecidableEq

/-- Outcome of one invocation: `diverged` models non-termination of the
pagination loop (fuel exhaustion), `failed` a propagated `Err`, `ok` the
returned summary. -/
inductive SyncResult where
  | diverged
  | failed (msg : String)
  | ok (summary : SyncSummary)
deriving Repr, DecidableEq

/-- A string that Rust `s.trim().is_empty()` considers blank: every
character is whitespace.  (Rust trims Unicode whitespace; the model uses
`Char.isWhitespace`, which covers the ASCII whitespace of the modelled
inputs.) -/
def isBlank (s : String) : Bool :=
  s.data.all (fun c => c.isWhitespace)

/-- The description built for one issue: first the line
`"YouTrack: {url}\n"`, then, when the issue description is present and not
blank, a blank line and the raw description. -/
def build_description (url : Url) (d : Option String) : String :=
  let head := "YouTrack: " ++ url.asStr ++ "\n"
  match d with
  | some body => if isBlank body then head else head ++ "\n" ++ body
  | none => head

/-- The `CreateTask` payload the loop body constructs for one open issue. -/
def build_payload (pid : Nat) (base : Url) (issue : YouTrackIssue) : CreateTask :=
  { project_id := pid
    title := issue_title_prefix issue.id_readable ++ issue.summary
    description := some (build_description ( issue_url base issue.id_readable) issue.description)
    status := some TaskStatus.todo
    parent_workspace_id := none
    image_ids := none
    shared_task_id := none }

/-- Accumulator of the per-issue loop of `sync_open_sprint_issues_to_todo`:
the store and the three summary counters/lists.  `created_ids` additionally
records the `idReadable` of each issue for which the create call ran (the
"would create" branch in dry-run mode): an observation of which loop
iterations reach the creation step, used to state per-issue claims. -/
structure SyncAcc where
  store : Store
  created : Nat
  skipped_existing : Nat
  created_titles : List String
  created_ids : List String
deriving Repr, DecidableEq

/-- The per-issue loop of `sync_open_sprint_issues_to_todo`, with the store
lookup and task creation abstracted as fallible operations (`find`,
`create`); a `some e` second component is the propagated error of the first
failing operation.  Instantiating `find` and `create` with the spec-modelled
store (`fun s pid pfx => .ok (storeFind s pid pfx)` and
`fun s ct => .ok (storeCreate s ct).2`) gives the failure-free store. -/
def sync_loop (find : Store → Nat → String → Except String (Option Task))
    (create : Store → CreateTask → Except String Store)
    (pid : Nat) (base : Url) (dry_run : Bool) :
    List YouTrackIssue → SyncAcc → SyncAcc × Option String
  | [], acc => (acc, none)
  | issue :: rest, acc =>
    let pfx := issue_title_prefix issue.id_readable
    match find acc.store pid pfx with
    | .error e => (acc, some e)
    | .ok (some _) =>
      sync_loop find create pid base dry_run rest
        { acc with skipped_existing := acc.skipped_existing + 1 }
    | .ok none =>
      let payload := build_payload pid base issue
      if dry_run then
        sync_loop find create pid base dry_run rest
          { acc with
              created := acc.created + 1
              created_titles := acc.created_titles ++ [payload.title]
              created_ids := acc.created_ids ++ [issue.id_readable] }
      else
        match create acc.store payload with
        | .error e => (acc, some e)
        | .ok s' =>
          sync_loop find create pid base dry_run rest
            { acc with
                store := s'
                created := acc.created + 1
                created_titles := acc.created_titles ++ [payload.title]
                created_ids := acc.created_ids ++ [issue.id_readable] }

/-- `sync_open_sprint_issues_to_todo` from the source: normalize the base
URL, fetch all sprint issue pages, filter to open issues, run the per-issue
loop, and return the summary.  The returned `Store` is the store state when
the invocation ends (also on failure: creations already performed remain
committed); the returned list is the `created_ids` observation of the
loop.  `agile_id` and `sprint_id` only select the endpoint that the `page`
function already stands for. -/
def sync_open_sprint_issues_to_todo
    (find : Store → Nat → String → Except String (Option Task))
    (create : Store → CreateTask → Except String Store)
    (page : Nat → Except String (List YouTrackIssue)) (fuel : Nat)
    (store : Store) (project_id : Nat) (youtrack_base_url : Url)
    (agile_id sprint_id state_field open_value : String) (dry_run : Bool) :
    Store × SyncResult × List String :=
  match normalize_base_url youtrack_base_url with
  | none => (store, .failed "invalid base URL", [])
  | some nbase =>
    match fetch_sprint_issues page fuel with
    | (none, _) => (store, .diverged, [])
    | (some (.error e), _) => (store, .failed e, [])
    | (some (.ok issues), _) =>
      let opens := issues.filter (fun i => is_open_issue i state_field open_value)
      match sync_loop find create project_id nbase dry_run opens
          { store := store, created := 0, skipped_existing := 0
            created_titles := [], created_ids := [] } with
      | (acc, some e) => (acc.store, .failed e, acc.created_ids)
      | (acc, none) =>
        (acc.store,
         .ok { open_issues_total := opens.length
               created := acc.created
               skipped_existing := acc.skipped_existing
               dry_run := dry_run
               created_titles := acc.created_titles },
         acc.created_ids)

/-- The failure-free store lookup: the spec-modelled store never errors. -/
def okFind (s : Store) (pid : Nat) (pfx : String) : Except String (Option Task) :=
  .ok (storeFind s pid pfx)

/-- The failure-free task creation: the spec-modelled store never errors. -/
def okCreate (s : Store) (ct : CreateTask) : Except String Store :=
  .ok (storeCreate s ct).2

/-! ## Pagination lemmas -/

theorem fetch_go_error {page : Nat → Except String (List YouTrackIssue)}
    {top skip : Nat} {e : String} (n : Nat) (h : page skip = .error e) :
    fetch_go page top (n + 1) skip = (some (.error e), [skip]) := by
  unfold fetch_go
  rw [h]

theorem fetch_go_short {page : Nat → Except String (List YouTrackIssue)}
    {top skip : Nat} {l : List YouTrackIssue} (n : Nat)
    (h : page skip = .ok l) (hl : l.length < top) :
    fetch_go page top (n + 1) skip = (some (.ok l), [skip]) := by
  unfold fetch_go
  rw [h]
  simp [hl]

theorem fetch_go_full {page : Nat → Except String (List YouTrackIssue)}
    {top skip : Nat} {l : List YouTrackIssue} (n : Nat)
    (h : page skip = .ok l) (hl : ¬ l.length < top) :
    fetch_go page top (n + 1) skip =
      match fetch_go page top n (skip + top) with
      | (some (.ok rest), log) => (some (.ok (l ++ rest)), skip :: log)
      | (other, log) => (other, skip :: log) := by
  unfold fetch_go
  rw [h]
  simp only [hl, if_false]
  cases n <;> rfl

/-- The `$skip` offsets requested by the pagination loop are strictly
increasing (in particular, no offset is ever requested twice). -/
theorem fetch_go_log_increasing (page : Nat → Except String (List YouTrackIssue))
    (top : Nat) (htop : 0 < top) :
    ∀ fuel skip, List.Pairwise (· < ·) (fetch_go page top fuel skip).2 ∧
      ∀ x ∈ (fetch_go page top fuel skip).2, skip ≤ x := by
  intro fuel
  induction fuel with
  | zero => intro skip; simp [fetch_go]
  | succ n ih =>
    intro skip
    unfold fetch_go
    cases hp : page skip with
    | error e => simp
    | ok l =>
      by_cases hl : l.length < top
      · simp [hl]
      · simp only [hl, if_false]
        obtain ⟨ihp, ihm⟩ := ih (skip + top)
        have hstep : ∀ x ∈ (fetch_go page top n (skip + top)).2, skip < x := by
          intro x hx
          have := ihm x hx
          omega
        cases hres : fetch_go page top n (skip + top) with
        | mk res log =>
          rw [hres] at ihp ihm hstep
          have hpair : List.Pairwise (fun a b => a < b) (skip :: log) :=
            List.pairwise_cons.mpr ⟨hstep, ihp⟩
          have hmem : ∀ x ∈ skip :: log, skip ≤ x := by
            intro x hx
            rcases List.mem_cons.mp hx with h | h
            · omega
            · exact Nat.le_of_lt (hstep x h)
          cases res with
          | none => exact ⟨hpair, hmem⟩
          | some r =>
            cases r with
            | error e => exact ⟨hpair, hmem⟩
            | ok rest => simp only []; exact ⟨hpair, hmem⟩

/-- C3: the fetch loop pages with `$skip` starting at 0 and `$top = 100`,
concatenates pages in request order, and stops exactly after the first page
shorter than 100 (otherwise it advances `skip` by 100 and repeats); with
pages of sizes [100, 100, 37] it makes exactly 3 requests and returns 237
issues, and with sizes [100, 100, 100] it makes 4 requests (the last one
empty) and returns 300 issues. -/
theorem C3_pagination
    (page page' : Nat → Except String (List YouTrackIssue))
    (i0 i1 i2 j0 j1 j2 : List YouTrackIssue) (fuel fuel' : Nat)
    (hf : 3 ≤ fuel) (hf' : 4 ≤ fuel')
    (h0 : page 0 = .ok i0) (h1 : page 100 = .ok i1) (h2 : page 200 = .ok i2)
    (l0 : i0.length = 100) (l1 : i1.length = 100) (l2 : i2.length = 37)
    (g0 : page' 0 = .ok j0) (g1 : page' 100 = .ok j1) (g2 : page' 200 = .ok j2)
    (g3 : page' 300 = .ok []) (m0 : j0.length = 100) (m1 : j1.length = 100)
    (m2 : j2.length = 100) :
    (∀ (p : Nat → Except String (List YouTrackIssue)) (n skip : Nat)
        (l : List YouTrackIssue), p skip = .ok l →
      (l.length < 100 → fetch_go p 100 (n + 1) skip = (some (.ok l), [skip])) ∧
      (¬ l.length < 100 → fetch_go p 100 (n + 1) skip =
        match fetch_go p 100 n (skip + 100) with
        | (some (.ok rest), log) => (some (.ok (l ++ rest)), skip :: log)
        | (other, log) => (other, skip :: log))) ∧
    fetch_sprint_issues page fuel = (some (.ok (i0 ++ i1 ++ i2)), [0, 100, 200]) ∧
    (i0 ++ i1 ++ i2).length = 237 ∧
    fetch_sprint_issues page' fuel' =
      (some (.ok (j0 ++ j1 ++ j2)), [0, 100, 200, 300]) ∧
    (j0 ++ j1 ++ j2).length = 300 := by
  refine ⟨fun p n skip l h => ⟨fun hl => fetch_go_short n h hl,
    fun hl => fetch_go_full n h hl⟩, ?_, ?_, ?_, ?_⟩
  · obtain ⟨k, rfl⟩ : ∃ k, fuel = k + 3 := ⟨fuel - 3, by omega⟩
    show fetch_go page 100 (k + 2 + 1) 0 = _
    rw [fetch_go_full (k + 2) h0 (by omega)]
    rw [show (0 + 100 : Nat) = 100 from rfl,
      fetch_go_full (k + 1) h1 (by omega)]
    rw [show (100 + 100 : Nat) = 200 from rfl,
      fetch_go_short k h2 (by omega)]
    simp [List.append_assoc]
  · simp [l0, l1, l2]
  · obtain ⟨k, rfl⟩ : ∃ k, fuel' = k + 4 := ⟨fuel' - 4, by omega⟩
    show fetch_go page' 100 (k + 3 + 1) 0 = _
    rw [fetch_go_full (k + 2 + 1) g0 (by omega)]
    rw [show (0 + 100 : Nat) = 100 from rfl,
      fetch_go_full (k + 1 + 1) g1 (by omega)]
    rw [show (100 + 100 : Nat) = 200 from rfl,
      fetch_go_full (k + 1) g2 (by omega)]
    rw [show (200 + 100 : Nat) = 300 from rfl,
      fetch_go_short k g3 (by simp)]
    simp [List.append_assoc]
  · simp [m0, m1, m2]

/-! ## Store and loop lemmas -/

/-- There is a task of the given project whose title starts with the
issue's derived title prefix — exactly what the dedup lookup observes. -/
def hasTaskFor (s : Store) (pid : Nat) (id : String) : Bool :=
  (storeFind s pid ( issue_title_prefix id)).isSome

theorem hasTaskFor_iff {s : Store} {pid : Nat} {id : String} :
    hasTaskFor s pid id = true ↔
      ∃ t ∈ s.tasks, t.project_id = pid ∧
        ( issue_title_prefix id).data.isPrefixOf t.title.data = true := by
  simp [hasTaskFor, storeFind, List.find?_isSome, Bool.and_eq_true, beq_iff_eq,
    and_assoc]

theorem hasTaskFor_mono {s s' : Store} {new : List Task} {pid : Nat} {id : String}
    (h : s'.tasks = s.tasks ++ new) (hh : hasTaskFor s pid id = true) :
    hasTaskFor s' pid id = true := by
  rw [hasTaskFor_iff] at hh ⊢
  obtain ⟨t, ht, hp⟩ := hh
  exact ⟨t, by simp [h, ht], hp⟩

theorem storeFind_none_not_hasTaskFor {s : Store} {pid : Nat} {id : String}
    (h : storeFind s pid ( issue_title_prefix id) = none) :
    ¬ hasTaskFor s pid id = true := by
  simp [hasTaskFor, h]

/-- The task created for an issue witnesses `hasTaskFor` for that issue. -/
theorem hasTaskFor_create {s : Store} {pid : Nat} {base : Url}
    {issue : YouTrackIssue} :
    hasTaskFor ⟨s.tasks ++ [(storeCreate s (build_payload pid base issue)).1],
      s.nextId + 1⟩ pid issue.id_readable = true := by
  rw [hasTaskFor_iff]
  refine ⟨(storeCreate s (build_payload pid base issue)).1, by simp, rfl, ?_⟩
  show ( issue_title_prefix issue.id_readable).data.isPrefixOf
    (( issue_title_prefix issue.id_readable ++ issue.summary)).data = true
  rw [String.data_append, List.isPrefixOf_iff_prefix]
  exact List.prefix_append _ _

/-- The per-issue loop with the spec-modelled store never fails. -/
theorem sync_loop_ok (pid : Nat) (base : Url) (dry : Bool) :
    ∀ (issues : List YouTrackIssue) (acc : SyncAcc),
      (sync_loop okFind okCreate pid base dry issues acc).2 = none := by
  intro issues
  induction issues with
  | nil => intro acc; rfl
  | cons i rest ih =>
    intro acc
    simp only [sync_loop, okFind, okCreate]
    cases hfind : storeFind acc.store pid ( issue_title_prefix i.id_readable) with
    | some t => exact ih _
    | none =>
      by_cases hd : dry = true
      · rw [if_pos hd]
        exact ih _
      · rw [if_neg hd]
        exact ih _

/-- The loop only appends tasks to the store, never in dry-run mode, and
every appended task is the payload built for one of the processed issues. -/
theorem sync_loop_store (pid : Nat) (base : Url) (dry : Bool) :
    ∀ (issues : List YouTrackIssue) (acc : SyncAcc),
      ∃ new, (sync_loop okFind okCreate pid base dry issues acc).1.store.tasks =
          acc.store.tasks ++ new ∧
        (dry = true → new = []) ∧
        ∀ t ∈ new, ∃ i ∈ issues,
          t.project_id = pid ∧ t.status = TaskStatus.todo ∧
          t.title = issue_title_prefix i.id_readable ++ i.summary ∧
          t.description =
            some (build_description ( issue_url base i.id_readable) i.description) := by
  intro issues
  induction issues with
  | nil =>
    intro acc
    exact ⟨[], by simp [sync_loop], fun _ => rfl, by simp⟩
  | cons i rest ih =>
    intro acc
    simp only [sync_loop, okFind, okCreate]
    cases hfind : storeFind acc.store pid ( issue_title_prefix i.id_readable) with
    | some t =>
      obtain ⟨new, h1, h2, h3⟩ := ih { acc with skipped_existing := acc.skipped_existing + 1 }
      exact ⟨new, h1, h2, fun t ht =>
        (h3 t ht).elim fun j hj => ⟨j, List.mem_cons_of_mem _ hj.1, hj.2⟩⟩
    | none =>
      by_cases hd : dry = true
      · rw [if_pos hd]
        obtain ⟨new, h1, h2, h3⟩ := ih _
        exact ⟨new, h1, h2, fun t ht =>
          (h3 t ht).elim fun j hj => ⟨j, List.mem_cons_of_mem _ hj.1, hj.2⟩⟩
      · rw [if_neg hd]
        obtain ⟨new, h1, h2, h3⟩ := ih
          { acc with
              store := (storeCreate acc.store (build_payload pid base i)).2
              created := acc.created + 1
              created_titles := acc.created_titles ++ [(build_payload pid base i).title]
              created_ids := acc.created_ids ++ [i.id_readable] }
        refine ⟨(storeCreate acc.store (build_payload pid base i)).1 :: new, ?_, ?_, ?_⟩
        · rw [h1]
          simp [storeCreate]
        · intro h
          exact absurd h hd
        · intro t ht
          rcases List.mem_cons.mp ht with h | h
          · subst h
            exact ⟨i, List.mem_cons_self i rest, rfl, rfl, rfl, rfl⟩
          · obtain ⟨j, hj, hprops⟩ := h3 t h
            exact ⟨j, List.mem_cons_of_mem _ hj, hprops⟩

theorem sync_loop_cons_skip {pid : Nat} {base : Url} {dry : Bool}
    {i : YouTrackIssue} {rest : List YouTrackIssue} {acc : SyncAcc} {t : Task}
    (hfind : storeFind acc.store pid ( issue_title_prefix i.id_readable) = some t) :
    sync_loop okFind okCreate pid base dry (i :: rest) acc =
      sync_loop okFind okCreate pid base dry rest
        { acc with skipped_existing := acc.skipped_existing + 1 } := by
  simp only [sync_loop, okFind, hfind]

theorem sync_loop_cons_dry {pid : Nat} {base : Url}
    {i : YouTrackIssue} {rest : List YouTrackIssue} {acc : SyncAcc}
    (hfind : storeFind acc.store pid ( issue_title_prefix i.id_readable) = none) :
    sync_loop okFind okCreate pid base true (i :: rest) acc =
      sync_loop okFind okCreate pid base true rest
        { acc with
            created := acc.created + 1
            created_titles := acc.created_titles ++ [(build_payload pid base i).title]
            created_ids := acc.created_ids ++ [i.id_readable] } := by
  simp only [sync_loop, okFind, hfind, if_true]

theorem sync_loop_cons_create {pid : Nat} {base : Url}
    {i : YouTrackIssue} {rest : List YouTrackIssue} {acc : SyncAcc}
    (hfind : storeFind acc.store pid ( issue_title_prefix i.id_readable) = none) :
    sync_loop okFind okCreate pid base false (i :: rest) acc =
      sync_loop okFind okCreate pid base false rest
        { acc with
            store := (storeCreate acc.store (build_payload pid base i)).2
            created := acc.created + 1
            created_titles := acc.created_titles ++ [(build_payload pid base i).title]
            created_ids := acc.created_ids ++ [i.id_readable] } := by
  simp only [sync_loop, okFind, okCreate, hfind, if_false, Bool.false_eq_true]

/-- After a failure-free non-dry-run loop pass, every processed issue has a
matching task in the resulting store. -/
theorem sync_loop_covers (pid : Nat) (base : Url) :
    ∀ (issues : List YouTrackIssue) (acc : SyncAcc), ∀ i ∈ issues,
      hasTaskFor (sync_loop okFind okCreate pid base false issues acc).1.store
        pid i.id_readable = true := by
  intro issues
  induction issues with
  | nil => intro acc i hi; cases hi
  | cons j rest ih =>
    intro acc i hi
    cases hfind : storeFind acc.store pid ( issue_title_prefix j.id_readable) with
    | some t =>
      rw [sync_loop_cons_skip hfind]
      rcases List.mem_cons.mp hi with h | h
      · subst h
        obtain ⟨new, hnew, -, -⟩ := sync_loop_store pid base false rest
          { acc with skipped_existing := acc.skipped_existing + 1 }
        have hacc : hasTaskFor acc.store pid i.id_readable = true := by
          simp [hasTaskFor, hfind]
        exact hasTaskFor_mono hnew hacc
      · exact ih _ i h
    | none =>
      rw [sync_loop_cons_create hfind]
      rcases List.mem_cons.mp hi with h | h
      · subst h
        obtain ⟨new, hnew, -, -⟩ := sync_loop_store pid base false rest _
        exact hasTaskFor_mono hnew (by exact hasTaskFor_create)
      · exact ih _ i h

/-- Counter bookkeeping of the loop: created plus skipped grows by exactly
the number of processed issues, the created-titles list grows by exactly
the created count, and the appended titles are a subsequence of the
processed issues' titles in processing order. -/
theorem sync_loop_counts (pid : Nat) (base : Url) (dry : Bool) :
    ∀ (issues : List YouTrackIssue) (acc : SyncAcc),
      (sync_loop okFind okCreate pid base dry issues acc).1.created +
          (sync_loop okFind okCreate pid base dry issues acc).1.skipped_existing =
        acc.created + acc.skipped_existing + issues.length ∧
      (sync_loop okFind okCreate pid base dry issues acc).1.created +
          acc.created_titles.length =
        acc.created +
          (sync_loop okFind okCreate pid base dry issues acc).1.created_titles.length ∧
      ∃ tl, (sync_loop okFind okCreate pid base dry issues acc).1.created_titles =
          acc.created_titles ++ tl ∧
        List.Sublist tl
          (issues.map fun i => issue_title_prefix i.id_readable ++ i.summary) := by
  intro issues
  induction issues with
  | nil =>
    intro acc
    exact ⟨rfl, rfl, [], by simp [sync_loop], List.nil_sublist _⟩
  | cons j rest ih =>
    intro acc
    cases hfind : storeFind acc.store pid ( issue_title_prefix j.id_readable) with
    | some t =>
      rw [sync_loop_cons_skip hfind]
      obtain ⟨h1, h2, tl, h3, h4⟩ := ih { acc with skipped_existing := acc.skipped_existing + 1 }
      refine ⟨by simpa [Nat.add_assoc, Nat.add_comm, Nat.add_left_comm] using h1, h2,
        tl, h3, ?_⟩
      exact h4.trans (List.sublist_cons_self _ _)
    | none =>
      by_cases hd : dry = true
      · subst hd
        rw [sync_loop_cons_dry hfind]
        obtain ⟨h1, h2, tl, h3, h4⟩ := ih
          { acc with
              created := acc.created + 1
              created_titles := acc.created_titles ++ [(build_payload pid base j).title]
              created_ids := acc.created_ids ++ [j.id_readable] }
        refine ⟨by simpa [Nat.add_assoc, Nat.add_comm, Nat.add_left_comm] using h1, ?_, ?_⟩
        · simp only [List.length_append, List.length_cons, List.length_nil] at h2 ⊢
          omega
        · refine ⟨(build_payload pid base j).title :: tl, ?_, ?_⟩
          · rw [h3]; simp
          · exact List.Sublist.cons₂ _ h4
      · have hd' : dry = false := by
          cases dry with
          | true => exact absurd rfl hd
          | false => rfl
        subst hd'
        rw [sync_loop_cons_create hfind]
        obtain ⟨h1, h2, tl, h3, h4⟩ := ih
          { acc with
              store := (storeCreate acc.store (build_payload pid base j)).2
              created := acc.created + 1
              created_titles := acc.created_titles ++ [(build_payload pid base j).title]
              created_ids := acc.created_ids ++ [j.id_readable] }
        refine ⟨by simpa [Nat.add_assoc, Nat.add_comm, Nat.add_left_comm] using h1, ?_, ?_⟩
        · simp only [List.length_append, List.length_cons, List.length_nil] at h2 ⊢
          omega
        · refine ⟨(build_payload pid base j).title :: tl, ?_, ?_⟩
          · rw [h3]; simp
          · exact List.Sublist.cons₂ _ h4

/-- If the store already holds a matching task for an issue id, a non-dry
loop pass performs no creation for that id and keeps the matching task. -/
theorem sync_loop_skip_covered (pid : Nat) (base : Url) (id : String) :
    ∀ (issues : List YouTrackIssue) (acc : SyncAcc),
      hasTaskFor acc.store pid id = true →
      (sync_loop okFind okCreate pid base false issues acc).1.created_ids.count id =
          acc.created_ids.count id ∧
      hasTaskFor (sync_loop okFind okCreate pid base false issues acc).1.store
        pid id = true := by
  intro issues
  induction issues with
  | nil => intro acc h; exact ⟨rfl, h⟩
  | cons j rest ih =>
    intro acc h
    cases hfind : storeFind acc.store pid ( issue_title_prefix j.id_readable) with
    | some t =>
      rw [sync_loop_cons_skip hfind]
      exact ih _ h
    | none =>
      rw [sync_loop_cons_create hfind]
      have hne : j.id_readable ≠ id := by
        intro he
        rw [he] at hfind
        exact storeFind_none_not_hasTaskFor hfind h
      have hmono : hasTaskFor
          ((storeCreate acc.store (build_payload pid base j)).2) pid id = true := by
        have hstep2 : ((storeCreate acc.store (build_payload pid base j)).2).tasks =
            acc.store.tasks ++ [(storeCreate acc.store (build_payload pid base j)).1] := by
          simp [storeCreate]
        exact hasTaskFor_mono hstep2 h
      obtain ⟨h1, h2⟩ := ih
        { acc with
            store := (storeCreate acc.store (build_payload pid base j)).2
            created := acc.created + 1
            created_titles := acc.created_titles ++ [(build_payload pid base j).title]
            created_ids := acc.created_ids ++ [j.id_readable] } hmono
      refine ⟨?_, h2⟩
      rw [h1]
      simp [List.count_append, List.count_cons, hne]

/-- A non-dry loop pass creates at most once per issue id, and every id it
records a creation for has a matching task afterwards. -/
theorem sync_loop_once (pid : Nat) (base : Url) (id : String) :
    ∀ (issues : List YouTrackIssue) (acc : SyncAcc),
      acc.created_ids.count id ≤ 1 →
      (id ∈ acc.created_ids → hasTaskFor acc.store pid id = true) →
      (sync_loop okFind okCreate pid base false issues acc).1.created_ids.count id ≤ 1 ∧
      (id ∈ (sync_loop okFind okCreate pid base false issues acc).1.created_ids →
        hasTaskFor (sync_loop okFind okCreate pid base false issues acc).1.store
          pid id = true) := by
  intro issues
  induction issues with
  | nil => intro acc h1 h2; exact ⟨h1, h2⟩
  | cons j rest ih =>
    intro acc h1 h2
    cases hfind : storeFind acc.store pid ( issue_title_prefix j.id_readable) with
    | some t =>
      rw [sync_loop_cons_skip hfind]
      exact ih _ h1 h2
    | none =>
      rw [sync_loop_cons_create hfind]
      have hstep : ((storeCreate acc.store (build_payload pid base j)).2).tasks =
          acc.store.tasks ++ [(storeCreate acc.store (build_payload pid base j)).1] := by
        simp [storeCreate]
      by_cases hej : j.id_readable = id
      · subst hej
        have hnot : ¬ j.id_readable ∈ acc.created_ids := fun hmem =>
          storeFind_none_not_hasTaskFor hfind (h2 hmem)
        have hzero : acc.created_ids.count j.id_readable = 0 :=
          List.count_eq_zero.mpr hnot
        refine ih _ ?_ ?_
        · simp [List.count_append, List.count_cons, hzero]
        · intro hmem
          rcases List.mem_append.mp hmem with h | h
          · exact hasTaskFor_mono hstep (h2 h)
          · have : hasTaskFor ((storeCreate acc.store (build_payload pid base j)).2)
                pid j.id_readable = true := by
              have := @hasTaskFor_create acc.store pid base j
              simpa [storeCreate] using this
            exact this
      · refine ih _ ?_ ?_
        · simpa [List.count_append, List.count_cons, hej] using h1
        · intro hmem
          have hmem' : id ∈ acc.created_ids := by
            rcases List.mem_append.mp hmem with h | h
            · exact h
            · simp only [List.mem_singleton] at h
              exact absurd h.symm hej
          exact hasTaskFor_mono hstep (h2 hmem')

/-! ## Unfolding the orchestrator -/

theorem sync_norm_fail
    {find : Store → Nat → String → Except String (Option Task)}
    {create : Store → CreateTask → Except String Store}
    {page : Nat → Except String (List YouTrackIssue)} {fuel : Nat}
    {store : Store} {pid : Nat} {base : Url} {agi spi sf ov : String} {dry : Bool}
    (hn : normalize_base_url base = none) :
    sync_open_sprint_issues_to_todo find create page fuel store pid base
      agi spi sf ov dry = (store, .failed "invalid base URL", []) := by
  unfold sync_open_sprint_issues_to_todo
  rw [hn]

theorem sync_diverged
    {find : Store → Nat → String → Except String (Option Task)}
    {create : Store → CreateTask → Except String Store}
    {page : Nat → Except String (List YouTrackIssue)} {fuel : Nat}
    {store : Store} {pid : Nat} {base : Url} {agi spi sf ov : String} {dry : Bool}
    {nbase : Url} {log : List Nat}
    (hn : normalize_base_url base = some nbase)
    (hf : fetch_sprint_issues page fuel = (none, log)) :
    sync_open_sprint_issues_to_todo find create page fuel store pid base
      agi spi sf ov dry = (store, .diverged, []) := by
  unfold sync_open_sprint_issues_to_todo
  rw [hn, hf]

theorem sync_fetch_error
    {find : Store → Nat → String → Except String (Option Task)}
    {create : Store → CreateTask → Except String Store}
    {page : Nat → Except String (List YouTrackIssue)} {fuel : Nat}
    {store : Store} {pid : Nat} {base : Url} {agi spi sf ov : String} {dry : Bool}
    {nbase : Url} {e : String} {log : List Nat}
    (hn : normalize_base_url base = some nbase)
    (hf : fetch_sprint_issues page fuel = (some (.error e), log)) :
    sync_open_sprint_issues_to_todo find create page fuel store pid base
      agi spi sf ov dry = (store, .failed e, []) := by
  unfold sync_open_sprint_issues_to_todo
  rw [hn, hf]

/-- Unfolding of a fetch-successful invocation with the spec-modelled
store, whose loop never fails. -/
theorem sync_ok_unfold
    {page : Nat → Except String (List YouTrackIssue)} {fuel : Nat}
    {store : Store} {pid : Nat} {base : Url} {agi spi sf ov : String} {dry : Bool}
    {nbase : Url} {issues : List YouTrackIssue} {log : List Nat}
    (hn : normalize_base_url base = some nbase)
    (hf : fetch_sprint_issues page fuel = (some (.ok issues), log)) :
    sync_open_sprint_issues_to_todo okFind okCreate page fuel store pid base
        agi spi sf ov dry =
      ((sync_loop okFind okCreate pid nbase dry
          (issues.filter (fun i => is_open_issue i sf ov))
          { store := store, created := 0, skipped_existing := 0
            created_titles := [], created_ids := [] }).1.store,
       .ok { open_issues_total := (issues.filter (fun i => is_open_issue i sf ov)).length
             created := (sync_loop okFind okCreate pid nbase dry
                 (issues.filter (fun i => is_open_issue i sf ov))
                 { store := store, created := 0, skipped_existing := 0
                   created_titles := [], created_ids := [] }).1.created
             skipped_existing := (sync_loop okFind okCreate pid nbase dry
                 (issues.filter (fun i => is_open_issue i sf ov))
                 { store := store, created := 0, skipped_existing := 0
                   created_titles := [], created_ids := [] }).1.skipped_existing
             dry_run := dry
             created_titles := (sync_loop okFind okCreate pid nbase dry
                 (issues.filter (fun i => is_open_issue i sf ov))
                 { store := store, created := 0, skipped_existing := 0
                   created_titles := [], created_ids := [] }).1.created_titles },
       (sync_loop okFind okCreate pid nbase dry
           (issues.filter (fun i => is_open_issue i sf ov))
           { store := store, created := 0, skipped_existing := 0
             created_titles := [], created_ids := [] }).1.created_ids) := by
  unfold sync_open_sprint_issues_to_todo
  rw [hn, hf]
  have hok := sync_loop_ok pid nbase dry
    (issues.filter (fun i => is_open_issue i sf ov))
    { store := store, created := 0, skipped_existing := 0
      created_titles := [], created_ids := [] }
  cases hloop : sync_loop okFind okCreate pid nbase dry
      (issues.filter (fun i => is_open_issue i sf ov))
      { store := store, created := 0, skipped_existing := 0
        created_titles := [], created_ids := [] } with
  | mk acc err =>
    rw [hloop] at hok
    simp only at hok
    subst hok
    simp only [hloop]

/-- When every processed issue already has a matching task, the non-dry
loop only counts skips and changes nothing else. -/
theorem sync_loop_all_skip (pid : Nat) (base : Url) :
    ∀ (issues : List YouTrackIssue) (acc : SyncAcc),
      (∀ i ∈ issues, hasTaskFor acc.store pid i.id_readable = true) →
      sync_loop okFind okCreate pid base false issues acc =
        ({ acc with skipped_existing := acc.skipped_existing + issues.length }, none) := by
  intro issues
  induction issues with
  | nil =>
    intro acc h
    simp [sync_loop]
  | cons j rest ih =>
    intro acc h
    cases hfind : storeFind acc.store pid ( issue_title_prefix j.id_readable) with
    | none =>
      exact absurd (h j (List.mem_cons_self j rest))
        (storeFind_none_not_hasTaskFor hfind)
    | some t =>
      rw [sync_loop_cons_skip hfind]
      rw [ih { acc with skipped_existing := acc.skipped_existing + 1 }
        (fun i hi => h i (List.mem_cons_of_mem j hi))]
      have harith : acc.skipped_existing + 1 + rest.length =
          acc.skipped_existing + (rest.length + 1) := by omega
      simp [harith]

/-- Per-issue-id facts of one non-dry invocation with the spec-modelled
store: at most one creation per id, no creation for an id that already has
a matching task, and every recorded creation leaves a matching task. -/
theorem sync_ids_facts
    {page : Nat → Except String (List YouTrackIssue)} {fuel : Nat}
    {store : Store} {pid : Nat} {base : Url} {agi spi sf ov : String}
    {s' : Store} {r : SyncResult} {ids : List String} (id : String)
    (h : sync_open_sprint_issues_to_todo okFind okCreate page fuel store pid base
        agi spi sf ov false = (s', r, ids)) :
    ids.count id ≤ 1 ∧
    (hasTaskFor store pid id = true →
      ids.count id = 0 ∧ hasTaskFor s' pid id = true) ∧
    (id ∈ ids → hasTaskFor s' pid id = true) := by
  cases hn : normalize_base_url base with
  | none =>
    rw [sync_norm_fail hn] at h
    simp only [Prod.mk.injEq] at h
    obtain ⟨rfl, -, rfl⟩ := h
    simp
  | some nbase =>
    cases hfet : fetch_sprint_issues page fuel with
    | mk ores log =>
      cases ores with
      | none =>
        rw [sync_diverged hn hfet] at h
        simp only [Prod.mk.injEq] at h
        obtain ⟨rfl, -, rfl⟩ := h
        simp
      | some res =>
        cases res with
        | error e =>
          rw [sync_fetch_error hn hfet] at h
          simp only [Prod.mk.injEq] at h
          obtain ⟨rfl, -, rfl⟩ := h
          simp
        | ok issues =>
          rw [sync_ok_unfold hn hfet] at h
          simp only [Prod.mk.injEq] at h
          obtain ⟨rfl, -, rfl⟩ := h
          have honce := sync_loop_once pid nbase id
            (issues.filter (fun i => is_open_issue i sf ov))
            { store := store, created := 0, skipped_existing := 0
              created_titles := [], created_ids := [] }
            (by simp) (by simp)
          refine ⟨honce.1, ?_, honce.2⟩
          intro hstart
          have hskip := sync_loop_skip_covered pid nbase id
            (issues.filter (fun i => is_open_issue i sf ov))
            { store := store, created := 0, skipped_existing := 0
              created_titles := [], created_ids := [] } hstart
          exact ⟨by simpa using hskip.1, hskip.2⟩

/-- C10: every summary of a successful invocation satisfies
`created + skipped_existing = open_issues_total`; `created_titles` has
length `created` and lists the created (or would-be-created) titles as a
subsequence, in order, of the open issues as returned by the tracker; and
the summary's `dry_run` field equals the `dry_run` argument. -/
theorem C10_summary_invariants
    (page : Nat → Except String (List YouTrackIssue)) (fuel : Nat)
    (store : Store) (pid : Nat) (base : Url) (agi spi sf ov : String)
    (dry : Bool) (s' : Store) (sum : SyncSummary) (ids : List String)
    (issues : List YouTrackIssue) (log : List Nat)
    (hf : fetch_sprint_issues page fuel = (some (.ok issues), log))
    (h : sync_open_sprint_issues_to_todo okFind okCreate page fuel store pid base
        agi spi sf ov dry = (s', .ok sum, ids)) :
    sum.created + sum.skipped_existing = sum.open_issues_total ∧
    sum.created_titles.length = sum.created ∧
    sum.dry_run = dry ∧
    sum.open_issues_total = (issues.filter (fun i => is_open_issue i sf ov)).length ∧
    List.Sublist sum.created_titles
      ((issues.filter (fun i => is_open_issue i sf ov)).map
        (fun i => issue_title_prefix i.id_readable ++ i.summary)) := by
  cases hn : normalize_base_url base with
  | none =>
    rw [sync_norm_fail hn] at h
    simp only [Prod.mk.injEq] at h
    exact absurd h.2.1 (by simp)
  | some nbase =>
    rw [sync_ok_unfold hn hf] at h
    simp only [Prod.mk.injEq, SyncResult.ok.injEq] at h
    obtain ⟨-, hsum, -⟩ := h
    subst hsum
    dsimp only
    obtain ⟨h1, h2, tl, h3, h4⟩ := sync_loop_counts pid nbase dry
      (issues.filter (fun i => is_open_issue i sf ov))
      { store := store, created := 0, skipped_existing := 0
        created_titles := [], created_ids := [] }
    refine ⟨by simpa using h1, ?_, rfl, rfl, ?_⟩
    · simp only [List.length_nil] at h2
      omega
    · simp only [List.nil_append] at h3
      rw [h3]
      exact h4

/-- C7: a second non-dry invocation against the same project with the same
tracker responses creates nothing: it returns the store unchanged with
`created = 0`, `skipped_existing = open_issues_total` and no titles. -/
theorem C7_second_run_idempotent
    (page : Nat → Except String (List YouTrackIssue)) (fuel : Nat)
    (store : Store) (pid : Nat) (base : Url) (agi spi sf ov : String)
    (s₁ : Store) (sum₁ : SyncSummary) (ids₁ : List String)
    (h1 : sync_open_sprint_issues_to_todo okFind okCreate page fuel store pid base
        agi spi sf ov false = (s₁, .ok sum₁, ids₁)) :
    ∃ sum₂ : SyncSummary,
      sync_open_sprint_issues_to_todo okFind okCreate page fuel s₁ pid base
          agi spi sf ov false = (s₁, .ok sum₂, []) ∧
      sum₂.created = 0 ∧
      sum₂.skipped_existing = sum₂.open_issues_total ∧
      sum₂.created_titles = [] := by
  cases hn : normalize_base_url base with
  | none =>
    rw [sync_norm_fail hn] at h1
    simp only [Prod.mk.injEq] at h1
    exact absurd h1.2.1 (by simp)
  | some nbase =>
    cases hfet : fetch_sprint_issues page fuel with
    | mk ores log =>
      cases ores with
      | none =>
        rw [sync_diverged hn hfet] at h1
        simp only [Prod.mk.injEq] at h1
        exact absurd h1.2.1 (by simp)
      | some res =>
        cases res with
        | error e =>
          rw [sync_fetch_error hn hfet] at h1
          simp only [Prod.mk.injEq] at h1
          exact absurd h1.2.1 (by simp)
        | ok issues =>
          rw [sync_ok_unfold hn hfet] at h1
          simp only [Prod.mk.injEq, SyncResult.ok.injEq] at h1
          obtain ⟨hs₁, -, -⟩ := h1
          have hcov : ∀ i ∈ issues.filter (fun i => is_open_issue i sf ov),
              hasTaskFor s₁ pid i.id_readable = true := by
            intro i hi
            rw [← hs₁]
            exact sync_loop_covers pid nbase _ _ i hi
          rw [sync_ok_unfold hn hfet]
          rw [sync_loop_all_skip pid nbase _
            { store := s₁, created := 0, skipped_existing := 0
              created_titles := [], created_ids := [] } (by exact hcov)]
          exact ⟨_, rfl, rfl, by simp, rfl⟩

/-- C1: the dedup lookup ensures at-most-once creation per
(project, issue readable id) pair — within one non-dry invocation at most
one creation per id, never a creation for an id whose matching task already
exists, every creation leaves a matching task behind, and across two
sequential invocations at most one creation for the same id in total. -/
theorem C1_at_most_one_creation_per_issue
    (page page₂ : Nat → Except String (List YouTrackIssue)) (fuel fuel₂ : Nat)
    (store s₁ s₂ : Store) (pid : Nat) (base base₂ : Url)
    (agi spi sf ov agi₂ spi₂ sf₂ ov₂ : String)
    (r₁ r₂ : SyncResult) (ids₁ ids₂ : List String) (id : String)
    (h1 : sync_open_sprint_issues_to_todo okFind okCreate page fuel store pid base
        agi spi sf ov false = (s₁, r₁, ids₁))
    (h2 : sync_open_sprint_issues_to_todo okFind okCreate page₂ fuel₂ s₁ pid base₂
        agi₂ spi₂ sf₂ ov₂ false = (s₂, r₂, ids₂)) :
    ids₁.count id ≤ 1 ∧
    (hasTaskFor store pid id = true →
      ids₁.count id = 0 ∧ hasTaskFor s₁ pid id = true) ∧
    (id ∈ ids₁ → hasTaskFor s₁ pid id = true) ∧
    ids₁.count id + ids₂.count id ≤ 1 := by
  obtain ⟨f1, f2, f3⟩ := sync_ids_facts id h1
  obtain ⟨g1, g2, g3⟩ := sync_ids_facts id h2
  refine ⟨f1, f2, f3, ?_⟩
  by_cases hc : ids₁.count id = 0
  · omega
  · have hmem : id ∈ ids₁ := by
      exact List.count_pos_iff.mp (Nat.pos_of_ne_zero hc)
    have := (g2 (f3 hmem)).1
    omega

/-- C5: for every issue the loop materialises, the task title is
`"[" + idReadable + "] " + summary`; the description starts with the line
`"YouTrack: " + (base URL joined with issue/{idReadable})`, followed — when
the issue description is present and non-blank — by a blank line and the
raw description verbatim, and by nothing otherwise; and every task a
non-dry invocation adds to the store is exactly such a payload for one of
the fetched open issues. -/
theorem C5_title_and_description
    (pid : Nat) (base : Url) (issue : YouTrackIssue)
    (page : Nat → Except String (List YouTrackIssue)) (fuel : Nat)
    (store : Store) (agi spi sf ov : String) (dry : Bool) (nbase : Url)
    (s' : Store) (r : SyncResult) (ids : List String)
    (issues : List YouTrackIssue) (log : List Nat)
    (hn : normalize_base_url base = some nbase)
    (hf : fetch_sprint_issues page fuel = (some (.ok issues), log))
    (h : sync_open_sprint_issues_to_todo okFind okCreate page fuel store pid base
        agi spi sf ov dry = (s', r, ids)) :
    (build_payload pid base issue).title =
      "[" ++ issue.id_readable ++ "] " ++ issue.summary ∧
    (issue.description = none →
      (build_payload pid base issue).description =
        some ("YouTrack: " ++ ( issue_url base issue.id_readable).asStr ++ "\n")) ∧
    (∀ b, issue.description = some b → isBlank b = true →
      (build_payload pid base issue).description =
        some ("YouTrack: " ++ ( issue_url base issue.id_readable).asStr ++ "\n")) ∧
    (∀ b, issue.description = some b → isBlank b = false →
      (build_payload pid base issue).description =
        some ("YouTrack: " ++ ( issue_url base issue.id_readable).asStr ++
          "\n" ++ "\n" ++ b)) ∧
    (∀ t ∈ s'.tasks, t ∈ store.tasks ∨
      ∃ i ∈ issues, is_open_issue i sf ov = true ∧
        t.title = "[" ++ i.id_readable ++ "] " ++ i.summary ∧
        t.description =
          some (build_description ( issue_url nbase i.id_readable) i.description)) := by
  refine ⟨rfl, ?_, ?_, ?_, ?_⟩
  · intro hd
    simp [build_payload, build_description, hd]
  · intro b hd hb
    simp [build_payload, build_description, hd, hb]
  · intro b hd hb
    simp only [build_payload, build_description, hd, hb]
    simp [String.append_assoc]
  · rw [sync_ok_unfold hn hf] at h
    simp only [Prod.mk.injEq] at h
    obtain ⟨hs, -, -⟩ := h
    intro t ht
    rw [← hs] at ht
    obtain ⟨new, hnew, -, hprov⟩ := sync_loop_store pid nbase dry
      (issues.filter (fun i => is_open_issue i sf ov))
      { store := store, created := 0, skipped_existing := 0
        created_titles := [], created_ids := [] }
    rw [hnew] at ht
    rcases List.mem_append.mp ht with hmem | hmem
    · exact Or.inl hmem
    · obtain ⟨i, hi, -, -, htitle, hdesc⟩ := hprov t hmem
      obtain ⟨hi', hopen⟩ := List.mem_filter.mp hi
      exact Or.inr ⟨i, hi', hopen, htitle, hdesc⟩

/-! ## Concrete scenario (spec §8's end-to-end example) -/

def exBase : Url :=
  { scheme := "https", host := "host", path := "/yt/", query := none, fragment := none }

def exIssueOpen : YouTrackIssue :=
  { id_readable := "ABC-1", summary := "Fix bug", description := some "details"
    custom_fields :=
      [{ name := "State", value := some (JsonValue.obj [("name", JsonValue.str "Open")]) }] }

def exIssueClosed : YouTrackIssue :=
  { id_readable := "ABC-2", summary := "Other", description := none
    custom_fields :=
      [{ name := "State", value := some (JsonValue.obj [("name", JsonValue.str "Done")]) }] }

def exPage : Nat → Except String (List YouTrackIssue) :=
  fun skip => if skip = 0 then .ok [exIssueOpen, exIssueClosed] else .ok []

def exStore : Store := { tasks := [], nextId := 0 }

def exStoreAfter : Store :=
  { tasks := [{ id := 0, project_id := 7, title := "[ABC-1] Fix bug"
                description := some "YouTrack: https://host/yt/issue/ABC-1\n\ndetails"
                status := TaskStatus.todo }]
    nextId := 1 }

def exSum1 : SyncSummary :=
  { open_issues_total := 1, created := 1, skipped_existing := 0, dry_run := false
    created_titles := ["[ABC-1] Fix bug"] }

def exSum2 : SyncSummary :=
  { open_issues_total := 1, created := 0, skipped_existing := 1, dry_run := false
    created_titles := [] }

def c3Issue : YouTrackIssue :=
  { id_readable := "X", summary := "", description := none, custom_fields := [] }

def c3PageA : Nat → Except String (List YouTrackIssue) :=
  fun skip => if skip < 200 then .ok (List.replicate 100 c3Issue)
              else .ok (List.replicate 37 c3Issue)

def c3PageB : Nat → Except String (List YouTrackIssue) :=
  fun skip => if skip < 300 then .ok (List.replicate 100 c3Issue) else .ok []

theorem C3_pagination_witness :
    fetch_sprint_issues c3PageA 3 =
      (some (.ok (List.replicate 100 c3Issue ++ List.replicate 100 c3Issue ++
        List.replicate 37 c3Issue)), [0, 100, 200]) ∧
    (List.replicate 100 c3Issue ++ List.replicate 100 c3Issue ++
      List.replicate 37 c3Issue).length = 237 ∧
    fetch_sprint_issues c3PageB 4 =
      (some (.ok (List.replicate 100 c3Issue ++ List.replicate 100 c3Issue ++
        List.replicate 100 c3Issue)), [0, 100, 200, 300]) ∧
    (List.replicate 100 c3Issue ++ List.replicate 100 c3Issue ++
      List.replicate 100 c3Issue).length = 300 := by
  have H := C3_pagination c3PageA c3PageB
    (List.replicate 100 c3Issue) (List.replicate 100 c3Issue) (List.replicate 37 c3Issue)
    (List.replicate 100 c3Issue) (List.replicate 100 c3Issue) (List.replicate 100 c3Issue)
    3 4 (by omega) (by omega) rfl rfl rfl (by simp) (by simp) (by simp)
    rfl rfl rfl rfl (by simp) (by simp) (by simp)
  exact ⟨H.2.1, H.2.2.1, H.2.2.2.1, H.2.2.2.2⟩

theorem C10_summary_invariants_witness :
    fetch_sprint_issues exPage 2 = (some (.ok [exIssueOpen, exIssueClosed]), [0]) ∧
    sync_open_sprint_issues_to_todo okFind okCreate exPage 2 exStore 7 exBase
      "a" "sp" "State" "Open" false = (exStoreAfter, .ok exSum1, ["ABC-1"]) ∧
    (exSum1.created + exSum1.skipped_existing = exSum1.open_issues_total ∧
     exSum1.created_titles.length = exSum1.created ∧
     exSum1.dry_run = false ∧
     exSum1.open_issues_total =
       ([exIssueOpen, exIssueClosed].filter
         (fun i => is_open_issue i "State" "Open")).length ∧
     List.Sublist exSum1.created_titles
       (([exIssueOpen, exIssueClosed].filter
           (fun i => is_open_issue i "State" "Open")).map
         (fun i => issue_title_prefix i.id_readable ++ i.summary))) :=
  ⟨by rfl, by rfl,
    C10_summary_invariants exPage 2 exStore 7 exBase "a" "sp" "State" "Open" false
      exStoreAfter exSum1 ["ABC-1"] [exIssueOpen, exIssueClosed] [0] (by rfl) (by rfl)⟩

theorem C7_second_run_idempotent_witness :
    sync_open_sprint_issues_to_todo okFind okCreate exPage 2 exStore 7 exBase
      "a" "sp" "State" "Open" false = (exStoreAfter, .ok exSum1, ["ABC-1"]) ∧
    (∃ sum₂ : SyncSummary,
      sync_open_sprint_issues_to_todo okFind okCreate exPage 2 exStoreAfter 7 exBase
          "a" "sp" "State" "Open" false = (exStoreAfter, .ok sum₂, []) ∧
      sum₂.created = 0 ∧
      sum₂.skipped_existing = sum₂.open_issues_total ∧
      sum₂.created_titles = []) :=
  ⟨by rfl,
    C7_second_run_idempotent exPage 2 exStore 7 exBase "a" "sp" "State" "Open"
      exStoreAfter exSum1 ["ABC-1"] (by rfl)⟩

theorem C1_at_most_one_creation_per_issue_witness :
    sync_open_sprint_issues_to_todo okFind okCreate exPage 2 exStore 7 exBase
      "a" "sp" "State" "Open" false = (exStoreAfter, .ok exSum1, ["ABC-1"]) ∧
    sync_open_sprint_issues_to_todo okFind okCreate exPage 2 exStoreAfter 7 exBase
      "a" "sp" "State" "Open" false = (exStoreAfter, .ok exSum2, []) ∧
    (["ABC-1"].count "ABC-1" ≤ 1 ∧
     (hasTaskFor exStore 7 "ABC-1" = true →
       (["ABC-1"] : List String).count "ABC-1" = 0 ∧
       hasTaskFor exStoreAfter 7 "ABC-1" = true) ∧
     ("ABC-1" ∈ (["ABC-1"] : List String) →
       hasTaskFor exStoreAfter 7 "ABC-1" = true) ∧
     (["ABC-1"] : List String).count "ABC-1" + ([] : List String).count "ABC-1" ≤ 1) :=
  ⟨by rfl, by rfl,
    C1_at_most_one_creation_per_issue exPage exPage 2 2 exStore exStoreAfter
      exStoreAfter 7 exBase exBase "a" "sp" "State" "Open" "a" "sp" "State" "Open"
      (.ok exSum1) (.ok exSum2) ["ABC-1"] [] "ABC-1" (by rfl) (by rfl)⟩

theorem C5_title_and_description_witness :
    (build_payload 7 exBase exIssueOpen).title =
      "[" ++ "ABC-1" ++ "] " ++ "Fix bug" ∧
    (build_payload 7 exBase exIssueOpen).description =
      some ("YouTrack: " ++ ( issue_url exBase "ABC-1").asStr ++ "\n" ++ "\n" ++
        "details") := by
  have H := C5_title_and_description 7 exBase exIssueOpen exPage 2 exStore
    "a" "sp" "State" "Open" false exBase exStoreAfter (.ok exSum1) ["ABC-1"]
    [exIssueOpen, exIssueClosed] [0] (by rfl) (by rfl) (by rfl)
  exact ⟨H.1, H.2.2.2.1 "details" (by rfl) (by rfl)⟩

/-! ## Dry-run semantics (C6) -/

def dupIssue : YouTrackIssue :=
  { id_readable := "A", summary := "s", description := none
    custom_fields := [{ name := "State", value := some (JsonValue.str "Open") }] }

def dupPage : Nat → Except String (List YouTrackIssue) :=
  fun skip => if skip = 0 then .ok [dupIssue, dupIssue] else .ok []

def dupStoreAfter : Store :=
  { tasks := [{ id := 0, project_id := 7, title := "[A] s"
                description := some "YouTrack: https://host/yt/issue/A\n"
                status := TaskStatus.todo }]
    nextId := 1 }

/-- C6 as stated is false: when the tracker returns the same issue twice,
a dry-run invocation reports two creations while a non-dry-run invocation
against the same store state creates (and reports) only one, because only
the latter's first creation is visible to the second lookup. -/
theorem C6_dry_run_counterexample :
    ∃ sumD sumW : SyncSummary,
      sync_open_sprint_issues_to_todo okFind okCreate dupPage 2 exStore 7 exBase
        "a" "sp" "State" "Open" true = (exStore, .ok sumD, ["A", "A"]) ∧
      sync_open_sprint_issues_to_todo okFind okCreate dupPage 2 exStore 7 exBase
        "a" "sp" "State" "Open" false = (dupStoreAfter, .ok sumW, ["A"]) ∧
      sumD.created = 2 ∧ sumW.created = 1 ∧
      sumD.created_titles ≠ sumW.created_titles ∧
      sumD.skipped_existing ≠ sumW.skipped_existing :=
  ⟨_, _, by rfl, by rfl, by rfl, by rfl, by decide, by decide⟩

/-- Tasks that cannot match the lookup do not change its result. -/
theorem storeFind_append_irrelevant {ts E : List Task} {pid : Nat} {pfx : String}
    {nD nW : Nat}
    (hE : ∀ t ∈ E, t.project_id = pid → pfx.data.isPrefixOf t.title.data = false) :
    storeFind ⟨ts ++ E, nW⟩ pid pfx = storeFind ⟨ts, nD⟩ pid pfx := by
  simp only [storeFind, List.find?_append]
  have hnone : E.find? (fun t => t.project_id == pid && pfx.data.isPrefixOf t.title.data)
      = none := by
    rw [List.find?_eq_none]
    intro t ht
    by_cases hp : t.project_id = pid
    · simp [hp, hE t ht hp]
    · simp [hp]
  rw [hnone, Option.or_none]

/-- A dry-run loop pass leaves the store untouched. -/
theorem sync_loop_dry_store (pid : Nat) (base : Url) :
    ∀ (issues : List YouTrackIssue) (acc : SyncAcc),
      (sync_loop okFind okCreate pid base true issues acc).1.store = acc.store := by
  intro issues
  induction issues with
  | nil => intro acc; rfl
  | cons j rest ih =>
    intro acc
    cases hfind : storeFind acc.store pid ( issue_title_prefix j.id_readable) with
    | some t => rw [sync_loop_cons_skip hfind]; exact ih _
    | none => rw [sync_loop_cons_dry hfind]; exact ih _

/-- Independence of a later issue from an earlier one: the later issue's
title prefix does not match the task title created for the earlier one. -/
def independent (a b : YouTrackIssue) : Prop :=
  ( issue_title_prefix b.id_readable).data.isPrefixOf
    (( issue_title_prefix a.id_readable ++ a.summary)).data = false

instance (a b : YouTrackIssue) : Decidable (independent a b) := by
  unfold independent
  infer_instance

/-- When no later issue's prefix matches an earlier issue's created title,
a dry-run loop pass and a non-dry-run loop pass over stores differing only
by tasks invisible to the lookups produce the same counters, titles and
creation trace. -/
theorem sync_loop_dry_wet_agree (pid : Nat) (base : Url) :
    ∀ (issues : List YouTrackIssue) (accD accW : SyncAcc) (E : List Task),
      accW.store.tasks = accD.store.tasks ++ E →
      (∀ i ∈ issues, ∀ t ∈ E, t.project_id = pid →
        ( issue_title_prefix i.id_readable).data.isPrefixOf t.title.data = false) →
      List.Pairwise independent issues →
      accD.created = accW.created →
      accD.skipped_existing = accW.skipped_existing →
      accD.created_titles = accW.created_titles →
      accD.created_ids = accW.created_ids →
      (sync_loop okFind okCreate pid base true issues accD).1.created =
          (sync_loop okFind okCreate pid base false issues accW).1.created ∧
      (sync_loop okFind okCreate pid base true issues accD).1.skipped_existing =
          (sync_loop okFind okCreate pid base false issues accW).1.skipped_existing ∧
      (sync_loop okFind okCreate pid base true issues accD).1.created_titles =
          (sync_loop okFind okCreate pid base false issues accW).1.created_titles ∧
      (sync_loop okFind okCreate pid base true issues accD).1.created_ids =
          (sync_loop okFind okCreate pid base false issues accW).1.created_ids := by
  intro issues
  induction issues with
  | nil =>
    intro accD accW E hstore hE hpw h1 h2 h3 h4
    exact ⟨h1, h2, h3, h4⟩
  | cons j rest ih =>
    intro accD accW E hstore hE hpw h1 h2 h3 h4
    have hfindeq : storeFind accW.store pid ( issue_title_prefix j.id_readable) =
        storeFind accD.store pid ( issue_title_prefix j.id_readable) := by
      have := @storeFind_append_irrelevant accD.store.tasks E pid
        ( issue_title_prefix j.id_readable) accD.store.nextId accW.store.nextId
        (fun t ht hp => hE j (List.mem_cons_self j rest) t ht hp)
      calc storeFind accW.store pid ( issue_title_prefix j.id_readable)
          = storeFind ⟨accD.store.tasks ++ E, accW.store.nextId⟩ pid
              ( issue_title_prefix j.id_readable) := by
            congr 1
            cases hw : accW.store with
            | mk tasks nextId => simp only [hw] at hstore ⊢; rw [← hstore]
        _ = storeFind ⟨accD.store.tasks, accD.store.nextId⟩ pid
              ( issue_title_prefix j.id_readable) := this
        _ = storeFind accD.store pid ( issue_title_prefix j.id_readable) := by
            congr 1
    obtain ⟨hhead, htail⟩ := List.pairwise_cons.mp hpw
    cases hfind : storeFind accD.store pid ( issue_title_prefix j.id_readable) with
    | some t =>
      rw [sync_loop_cons_skip hfind, sync_loop_cons_skip (hfindeq.trans hfind)]
      exact ih { accD with skipped_existing := accD.skipped_existing + 1 }
        { accW with skipped_existing := accW.skipped_existing + 1 } E hstore
        (fun i hi t ht hp => hE i (List.mem_cons_of_mem j hi) t ht hp) htail
        h1 (by simp [h2]) h3 h4
    | none =>
      rw [sync_loop_cons_dry hfind, sync_loop_cons_create (hfindeq.trans hfind)]
      refine ih _ _ (E ++ [(storeCreate accW.store (build_payload pid base j)).1])
        ?_ ?_ htail (by simp [h1]) h2 (by simp [h3]) (by simp [h4])
      · show ((storeCreate accW.store (build_payload pid base j)).2).tasks =
          accD.store.tasks ++ (E ++ [(storeCreate accW.store (build_payload pid base j)).1])
        simp only [storeCreate]
        rw [hstore]
        simp [List.append_assoc]
      · intro i hi t ht hp
        rcases List.mem_append.mp ht with hmem | hmem
        · exact hE i (List.mem_cons_of_mem j hi) t hmem hp
        · simp only [List.mem_singleton] at hmem
          subst hmem
          exact hhead i hi

/-- C6 amended: a dry-run invocation performs no store mutation and
computes `open_issues_total` and the flag as a non-dry-run invocation
would; provided no open issue's derived title prefix matches the task
title created for an earlier open issue of the same run (true in
particular when all readable ids are distinct and no id is an extension
of another), its `created`, `skipped_existing`, `created_titles` and
creation trace also equal the non-dry-run invocation's against the same
store state. -/
theorem C6_amended_dry_run
    (page : Nat → Except String (List YouTrackIssue)) (fuel : Nat)
    (store : Store) (pid : Nat) (base : Url) (agi spi sf ov : String)
    (issues : List YouTrackIssue) (log : List Nat) (nbase : Url)
    (hn : normalize_base_url base = some nbase)
    (hf : fetch_sprint_issues page fuel = (some (.ok issues), log))
    (hpw : List.Pairwise independent
      (issues.filter (fun i => is_open_issue i sf ov))) :
    ∃ (sumD sumW : SyncSummary) (s' : Store) (ids : List String),
      sync_open_sprint_issues_to_todo okFind okCreate page fuel store pid base
        agi spi sf ov true = (store, .ok sumD, ids) ∧
      sync_open_sprint_issues_to_todo okFind okCreate page fuel store pid base
        agi spi sf ov false = (s', .ok sumW, ids) ∧
      sumD.open_issues_total = sumW.open_issues_total ∧
      sumD.created = sumW.created ∧
      sumD.skipped_existing = sumW.skipped_existing ∧
      sumD.created_titles = sumW.created_titles ∧
      sumD.dry_run = true ∧ sumW.dry_run = false := by
  have hds := sync_loop_dry_store pid nbase
    (issues.filter (fun i => is_open_issue i sf ov))
    { store := store, created := 0, skipped_existing := 0
      created_titles := [], created_ids := [] }
  have hagree := sync_loop_dry_wet_agree pid nbase
    (issues.filter (fun i => is_open_issue i sf ov))
    { store := store, created := 0, skipped_existing := 0
      created_titles := [], created_ids := [] }
    { store := store, created := 0, skipped_existing := 0
      created_titles := [], created_ids := [] }
    [] (by simp) (by simp) hpw rfl rfl rfl rfl
  have hD := @sync_ok_unfold page fuel store pid base agi spi sf ov true
    nbase issues log hn hf
  have hW := @sync_ok_unfold page fuel store pid base agi spi sf ov false
    nbase issues log hn hf
  rw [hds] at hD
  rw [← hagree.2.2.2] at hW
  exact ⟨_, _, _, _, hD, hW, rfl, hagree.1, hagree.2.1, hagree.2.2.1, rfl, rfl⟩

theorem C6_amended_dry_run_witness :
    normalize_base_url exBase = some exBase ∧
    fetch_sprint_issues exPage 2 = (some (.ok [exIssueOpen, exIssueClosed]), [0]) ∧
    List.Pairwise independent
      ([exIssueOpen, exIssueClosed].filter
        (fun i => is_open_issue i "State" "Open")) ∧
    (∃ (sumD sumW : SyncSummary) (s' : Store) (ids : List String),
      sync_open_sprint_issues_to_todo okFind okCreate exPage 2 exStore 7 exBase
        "a" "sp" "State" "Open" true = (exStore, .ok sumD, ids) ∧
      sync_open_sprint_issues_to_todo okFind okCreate exPage 2 exStore 7 exBase
        "a" "sp" "State" "Open" false = (s', .ok sumW, ids) ∧
      sumD.open_issues_total = sumW.open_issues_total ∧
      sumD.created = sumW.created ∧
      sumD.skipped_existing = sumW.skipped_existing ∧
      sumD.created_titles = sumW.created_titles ∧
      sumD.dry_run = true ∧ sumW.dry_run = false) :=
  ⟨by rfl, by rfl, by decide,
    C6_amended_dry_run exPage 2 exStore 7 exBase "a" "sp" "State" "Open"
      [exIssueOpen, exIssueClosed] [0] exBase (by rfl) (by rfl) (by decide)⟩

/-! ## Board-URL parsing (C4) -/

theorem getLast?_append_right {c : Char} {l₁ l₂ : List Char}
    (h : l₂.getLast? = some c) : (l₁ ++ l₂).getLast? = some c := by
  simp [List.getLast?_append, h]

theorem normalize_of_slash {u : Url} (hq : u.query = none) (hf : u.fragment = none)
    (hp : u.path.data.getLast? = some '/') : normalize_base_url u = some u := by
  have hstr : u.asStr.data.getLast? = some '/' := by
    unfold Url.asStr
    rw [hq, hf]
    show ((u.scheme ++ "://" ++ u.host ++ u.path).data ++ ("" : String).data ++
      ("" : String).data).getLast? = some '/'
    rw [show ("" : String).data = ([] : List Char) from rfl]
    simp only [List.append_nil]
    exact getLast?_append_right hp
  have he : endsWithSlash u.asStr = true := by
    unfold endsWithSlash
    rw [hstr]
    rfl
  unfold normalize_base_url
  simp [he]

theorem prePath_getLast (segs : List String) :
    (if segs.isEmpty then "/"
     else "/" ++ joinSegs segs ++ "/").data.getLast? = some '/' := by
  cases segs with
  | nil => rfl
  | cons s rest =>
    rw [if_neg (by simp)]
    exact getLast?_append_right rfl

theorem normalize_board_base (u : Url) (segs : List String) :
    normalize_base_url
      { u with
          path := if segs.isEmpty then "/" else "/" ++ joinSegs segs ++ "/"
          query := none
          fragment := none } =
      some { u with
              path := if segs.isEmpty then "/" else "/" ++ joinSegs segs ++ "/"
              query := none
              fragment := none } :=
  normalize_of_slash rfl rfl (prePath_getLast segs)

/-- Success characterisation of `parse_board_url`. -/
theorem parse_board_url_some_iff (s : String) (res : Url × String × String) :
    parse_board_url s = some res ↔
      ∃ u i a sp, Url.parse s = some u ∧
        (path_segments u).findIdx? (fun seg => eqIgnoreAsciiCase seg "agiles") =
          some i ∧
        (path_segments u)[i + 1]? = some a ∧
        (path_segments u)[i + 2]? = some sp ∧
        res = ({ u with
                  path := if ((path_segments u).take i).isEmpty then "/"
                          else "/" ++ joinSegs ((path_segments u).take i) ++ "/"
                  query := none
                  fragment := none }, a, sp) := by
  constructor
  · intro h
    unfold parse_board_url at h
    cases hu : Url.parse s with
    | none => rw [hu] at h; cases h
    | some u =>
      rw [hu] at h
      cases hidx : (path_segments u).findIdx?
          (fun seg => eqIgnoreAsciiCase seg "agiles") with
      | none => simp [hidx] at h
      | some i =>
        cases ha : (path_segments u)[i + 1]? with
        | none => simp [hidx, ha] at h
        | some a =>
          cases hsp : (path_segments u)[i + 2]? with
          | none => simp [hidx, ha, hsp] at h
          | some sp =>
            simp only [hidx, ha, hsp,
              normalize_board_base u ((path_segments u).take i),
              Option.some.injEq] at h
            exact ⟨u, i, a, sp, rfl, hidx, ha, hsp, h.symm⟩
  · rintro ⟨u, i, a, sp, hu, hidx, ha, hsp, hres⟩
    subst hres
    unfold parse_board_url
    rw [hu]
    simp only [hidx, ha, hsp,
      normalize_board_base u ((path_segments u).take i)]

/-- C4: `parse_board_url` succeeds exactly when the URL parses and contains
an "agiles" path segment (case-insensitively) followed by two further
segments, in which case it returns the base rebuilt from everything before
that segment with query and fragment stripped and a trailing slash, plus
the two id segments; the spec's examples behave as stated. -/
theorem C4_parse_board_url (s : String) (res : Url × String × String) :
    (parse_board_url s = some res ↔
      ∃ u i a sp, Url.parse s = some u ∧
        (path_segments u).findIdx? (fun seg => eqIgnoreAsciiCase seg "agiles") =
          some i ∧
        (path_segments u)[i + 1]? = some a ∧
        (path_segments u)[i + 2]? = some sp ∧
        res = ({ u with
                  path := if ((path_segments u).take i).isEmpty then "/"
                          else "/" ++ joinSegs ((path_segments u).take i) ++ "/"
                  query := none
                  fragment := none }, a, sp)) ∧
    parse_board_url "https://host/youtrack/agiles/65-52/66-155467?x=1" =
      some ({ scheme := "https", host := "host", path := "/youtrack/"
              query := none, fragment := none }, "65-52", "66-155467") ∧
    parse_board_url "https://host/youtrack/boards/65-52/66-155467" = none ∧
    parse_board_url "not a url" = none ∧
    parse_board_url "https://host/youtrack/agiles/65-52" = none :=
  ⟨parse_board_url_some_iff s res, by rfl, by rfl, by rfl, by rfl⟩

/-! ## Board-URL input path vs direct input path (C8) -/

/-- Concatenation of path segments, each followed by `'/'`. -/
def joinSlashC : List (List Char) → List Char
  | [] => []
  | seg :: rest => seg ++ '/' :: joinSlashC rest

theorem splitSchemeSep_append (a b : List Char) (ha : ∀ c ∈ a, c ≠ ':') :
    splitSchemeSep (a ++ ':' :: '/' :: '/' :: b) = some (a, b) := by
  induction a with
  | nil =>
    show splitSchemeSep (':' :: '/' :: '/' :: b) = some ([], b)
    unfold splitSchemeSep
    rw [if_pos ⟨rfl, rfl⟩]
    rfl
  | cons c a' ih =>
    show splitSchemeSep (c :: (a' ++ ':' :: '/' :: '/' :: b)) = some (c :: a', b)
    unfold splitSchemeSep
    rw [if_neg (fun hcon => ha c (List.mem_cons_self c a') hcon.1)]
    rw [ih (fun x hx => ha x (List.mem_cons_of_mem c hx))]

theorem splitAtFirst_no_sep (sep : Char) (l : List Char) (h : ∀ c ∈ l, c ≠ sep) :
    splitAtFirst sep l = (l, none) := by
  induction l with
  | nil => rfl
  | cons c rest ih =>
    unfold splitAtFirst
    rw [if_neg (h c (List.mem_cons_self c rest))]
    rw [ih (fun x hx => h x (List.mem_cons_of_mem c hx))]

theorem splitAtFirst_append_cons (sep : Char) (a b : List Char)
    (h : ∀ c ∈ a, c ≠ sep) :
    splitAtFirst sep (a ++ sep :: b) = (a, some b) := by
  induction a with
  | nil =>
    show splitAtFirst sep (sep :: b) = ([], some b)
    unfold splitAtFirst
    rw [if_pos rfl]
  | cons c a' ih =>
    show splitAtFirst sep (c :: (a' ++ sep :: b)) = (c :: a', some b)
    unfold splitAtFirst
    rw [if_neg (h c (List.mem_cons_self c a'))]
    rw [ih (fun x hx => h x (List.mem_cons_of_mem c hx))]

theorem splitListOn_no_sep (c : Char) (l : List Char) (h : ∀ x ∈ l, x ≠ c) :
    splitListOn c l = [l] := by
  induction l with
  | nil => rfl
  | cons x rest ih =>
    unfold splitListOn
    rw [if_neg (h x (List.mem_cons_self x rest))]
    rw [ih (fun y hy => h y (List.mem_cons_of_mem x hy))]

theorem splitListOn_seg_cons (c : Char) (seg rest : List Char)
    (h : ∀ x ∈ seg, x ≠ c) :
    splitListOn c (seg ++ c :: rest) = seg :: splitListOn c rest := by
  induction seg with
  | nil =>
    show splitListOn c (c :: rest) = [] :: splitListOn c rest
    conv_lhs => unfold splitListOn
    rw [if_pos rfl]
  | cons x seg' ih =>
    show splitListOn c (x :: (seg' ++ c :: rest)) = (x :: seg') :: splitListOn c rest
    conv_lhs => unfold splitListOn
    rw [if_neg (h x (List.mem_cons_self x seg'))]
    rw [ih (fun y hy => h y (List.mem_cons_of_mem x hy))]

theorem splitListOn_joinSlashC (pre : List (List Char)) (tail : List Char)
    (h : ∀ seg ∈ pre, ∀ x ∈ seg, x ≠ '/') :
    splitListOn '/' (joinSlashC pre ++ tail) = pre ++ splitListOn '/' tail := by
  induction pre with
  | nil => rfl
  | cons seg rest ih =>
    show splitListOn '/' ((seg ++ '/' :: joinSlashC rest) ++ tail) = _
    rw [List.append_assoc, List.cons_append]
    rw [splitListOn_seg_cons '/' seg _ (h seg (List.mem_cons_self seg rest))]
    rw [ih (fun s hs => h s (List.mem_cons_of_mem seg hs))]
    rfl

theorem mem_joinSlashC {c : Char} {pre : List (List Char)}
    (h : c ∈ joinSlashC pre) : c = '/' ∨ ∃ seg ∈ pre, c ∈ seg := by
  induction pre with
  | nil => cases h
  | cons seg rest ih =>
    simp only [joinSlashC] at h
    rcases List.mem_append.mp h with hm | hm
    · exact Or.inr ⟨seg, List.mem_cons_self seg rest, hm⟩
    · rcases List.mem_cons.mp hm with hm | hm
      · exact Or.inl hm
      · rcases ih hm with hm | ⟨s, hs, hcs⟩
        · exact Or.inl hm
        · exact Or.inr ⟨s, List.mem_cons_of_mem seg hs, hcs⟩

theorem joinSegs_data (pre : List (List Char)) (hne : pre ≠ []) :
    (joinSegs (pre.map String.mk)).data ++ ['/'] = joinSlashC pre := by
  induction pre with
  | nil => exact absurd rfl hne
  | cons seg rest ih =>
    cases rest with
    | nil => rfl
    | cons t rest' =>
      show ((String.mk seg ++ "/" ++
        joinSegs (List.map String.mk (t :: rest'))).data ++ ['/']) = _
      simp only [String.data_append, List.append_assoc]
      show seg ++ ('/' :: ((joinSegs (List.map String.mk (t :: rest'))).data ++ ['/'])) =
        seg ++ '/' :: joinSlashC (t :: rest')
      rw [ih (by simp)]

/-- Parsing the serialisation of a well-formed hierarchical URL with extra
path text appended recovers the URL with that text appended to its path. -/
theorem parse_asStr_append (sch hst pth extra : String) (p0 : List Char)
    (hs1 : sch.data ≠ []) (hs2 : ∀ c ∈ sch.data, c.isAlpha = true)
    (hh1 : hst.data ≠ [])
    (hh2 : ∀ c ∈ hst.data, c ≠ '/' ∧ c ≠ '?' ∧ c ≠ '#')
    (hp : pth.data = '/' :: p0)
    (hpc : ∀ c ∈ p0, c ≠ '?' ∧ c ≠ '#')
    (he : ∀ c ∈ extra.data, c ≠ '?' ∧ c ≠ '#') :
    Url.parse ((Url.mk sch hst pth none none).asStr ++ extra) =
      some (Url.mk sch hst (pth ++ extra) none none) := by
  have hdata : ((Url.mk sch hst pth none none).asStr ++ extra).data =
      sch.data ++ ':' :: '/' :: '/' :: (hst.data ++ ('/' :: (p0 ++ extra.data))) := by
    show (sch ++ "://" ++ hst ++ pth ++ "" ++ "" ++ extra).data = _
    simp only [String.data_append]
    rw [hp]
    simp [List.append_assoc]
  have hrest : ∀ c ∈ hst.data ++ ('/' :: (p0 ++ extra.data)),
      c ≠ '?' ∧ c ≠ '#' := by
    intro c hc
    rcases List.mem_append.mp hc with hm | hm
    · exact ⟨(hh2 c hm).2.1, (hh2 c hm).2.2⟩
    · rcases List.mem_cons.mp hm with hm | hm
      · subst hm; exact ⟨by decide, by decide⟩
      · rcases List.mem_append.mp hm with hm | hm
        · exact hpc c hm
        · exact he c hm
  unfold Url.parse
  rw [hdata]
  rw [splitSchemeSep_append _ _ (fun c hc hcolon => by
    have := hs2 c hc
    rw [hcolon] at this
    exact absurd this (by decide))]
  dsimp only
  rw [if_neg (fun hh => hs1 (List.isEmpty_iff.mp hh))]
  rw [if_neg (not_not_intro (List.all_eq_true.mpr hs2))]
  rw [splitAtFirst_no_sep '#' _ (fun c hc => (hrest c hc).2)]
  rw [splitAtFirst_no_sep '?' _ (fun c hc => (hrest c hc).1)]
  rw [splitAtFirst_append_cons '/' hst.data _ (fun c hc => (hh2 c hc).1)]
  rw [if_neg (fun hh => hh1 (List.isEmpty_iff.mp hh))]
  have hpath : String.mk ('/' :: (p0 ++ extra.data)) = pth ++ extra := by
    apply String.ext
    show '/' :: (p0 ++ extra.data) = (pth ++ extra).data
    rw [String.data_append, hp]
    rfl
  dsimp only
  rw [hpath]
  rfl

theorem slash_joinSlashC_getLast (pre : List (List Char)) :
    ('/' :: joinSlashC pre).getLast? = some '/' := by
  cases pre with
  | nil => rfl
  | cons s rest =>
    rw [← joinSegs_data (s :: rest) (by simp)]
    show (['/'] ++ ((joinSegs (List.map String.mk (s :: rest))).data ++ ['/'])).getLast? =
      some '/'
    exact getLast?_append_right (List.getLast?_concat _)

theorem prePath_eq (pre : List (List Char)) (pth : String)
    (hpath : pth.data = '/' :: joinSlashC pre) :
    (if (pre.map String.mk).isEmpty then "/"
     else "/" ++ joinSegs (pre.map String.mk) ++ "/") = pth := by
  apply String.ext
  cases pre with
  | nil =>
    rw [hpath]
    rfl
  | cons s rest =>
    rw [if_neg (by simp)]
    show (("/" ++ joinSegs (List.map String.mk (s :: rest))).data ++
      ("/" : String).data) = pth.data
    rw [hpath, String.data_append]
    show ('/' :: (joinSegs (List.map String.mk (s :: rest))).data) ++ ['/'] =
      '/' :: joinSlashC (s :: rest)
    rw [List.cons_append, joinSegs_data (s :: rest) (by simp)]

/-- C8: for a board URL of the expected shape — a well-formed hierarchical
base URL (trailing slash, no query or fragment, no path segment named
"agiles") followed by `agiles/{agileId}/{sprintId}` — the board-URL input
path (`parse_board_url`) and the direct input path (base URL, agile id,
sprint id, normalized by the orchestrator) produce the same normalized
base URL, agile id and sprint id. -/
theorem C8_board_url_equals_direct
    (u : Url) (a sp : String) (pre : List (List Char))
    (hs1 : u.scheme.data ≠ []) (hs2 : ∀ c ∈ u.scheme.data, c.isAlpha = true)
    (hh1 : u.host.data ≠ [])
    (hh2 : ∀ c ∈ u.host.data, c ≠ '/' ∧ c ≠ '?' ∧ c ≠ '#')
    (hq : u.query = none) (hf : u.fragment = none)
    (hpath : u.path.data = '/' :: joinSlashC pre)
    (hpre : ∀ seg ∈ pre, ∀ x ∈ seg, x ≠ '/' ∧ x ≠ '?' ∧ x ≠ '#')
    (hnoag : ∀ seg ∈ pre, eqIgnoreAsciiCase (String.mk seg) "agiles" = false)
    (ha : ∀ c ∈ a.data, c ≠ '/' ∧ c ≠ '?' ∧ c ≠ '#')
    (hsp : ∀ c ∈ sp.data, c ≠ '/' ∧ c ≠ '?' ∧ c ≠ '#') :
    parse_board_url (u.asStr ++ ("agiles/" ++ a ++ "/" ++ sp)) = some (u, a, sp) ∧
    normalize_base_url u = some u := by
  obtain ⟨us, uh, up, uq, uf⟩ := u
  replace hq : uq = none := hq
  replace hf : uf = none := hf
  subst hq
  subst hf
  replace hs1 : us.data ≠ [] := hs1
  replace hs2 : ∀ c ∈ us.data, c.isAlpha = true := hs2
  replace hh1 : uh.data ≠ [] := hh1
  replace hh2 : ∀ c ∈ uh.data, c ≠ '/' ∧ c ≠ '?' ∧ c ≠ '#' := hh2
  replace hpath : up.data = '/' :: joinSlashC pre := hpath
  have hnorm : normalize_base_url (Url.mk us uh up none none) =
      some (Url.mk us uh up none none) := by
    refine normalize_of_slash rfl rfl ?_
    show up.data.getLast? = some '/'
    rw [hpath]
    exact slash_joinSlashC_getLast pre
  refine ⟨?_, hnorm⟩
  have hagl : ∀ c ∈ ("agiles/" : String).data, c ≠ '?' ∧ c ≠ '#' := by decide
  have hextra : ∀ c ∈ ("agiles/" ++ a ++ "/" ++ sp : String).data,
      c ≠ '?' ∧ c ≠ '#' := by
    intro c hc
    simp only [String.data_append] at hc
    rcases List.mem_append.mp hc with hc | hc
    · rcases List.mem_append.mp hc with hc | hc
      · rcases List.mem_append.mp hc with hc | hc
        · exact hagl c hc
        · exact ⟨(ha c hc).2.1, (ha c hc).2.2⟩
      · have : c = '/' := by
          rcases List.mem_singleton.mp (by exact hc) with h
          exact h
        subst this
        exact ⟨by decide, by decide⟩
    · exact ⟨(hsp c hc).2.1, (hsp c hc).2.2⟩
  have hpc : ∀ c ∈ joinSlashC pre, c ≠ '?' ∧ c ≠ '#' := by
    intro c hc
    rcases mem_joinSlashC hc with h | ⟨seg, hseg, hcs⟩
    · subst h
      exact ⟨by decide, by decide⟩
    · exact ⟨(hpre seg hseg c hcs).2.1, (hpre seg hseg c hcs).2.2⟩
  have hparse : Url.parse ((Url.mk us uh up none none).asStr ++
      ("agiles/" ++ a ++ "/" ++ sp)) =
      some (Url.mk us uh (up ++ ("agiles/" ++ a ++ "/" ++ sp)) none none) :=
    parse_asStr_append us uh up _ (joinSlashC pre) hs1 hs2 hh1 hh2 hpath hpc hextra
  have hextra_shape : ("agiles/" ++ a ++ "/" ++ sp : String).data =
      ("agiles" : String).data ++ '/' :: (a.data ++ '/' :: sp.data) := by
    simp [String.data_append, List.append_assoc]
  have hsegs : path_segments
      (Url.mk us uh (up ++ ("agiles/" ++ a ++ "/" ++ sp)) none none) =
      pre.map String.mk ++ ["agiles", a, sp] := by
    unfold path_segments
    show (splitListOn '/'
      (((up ++ ("agiles/" ++ a ++ "/" ++ sp)).data).drop 1)).map String.mk = _
    rw [String.data_append, hpath]
    show (splitListOn '/'
      (joinSlashC pre ++ ("agiles/" ++ a ++ "/" ++ sp : String).data)).map String.mk = _
    rw [splitListOn_joinSlashC pre _ (fun seg hs x hx => (hpre seg hs x hx).1)]
    rw [hextra_shape]
    rw [splitListOn_seg_cons '/' ("agiles" : String).data _ (by decide)]
    rw [splitListOn_seg_cons '/' a.data _ (fun c hc => (ha c hc).1)]
    rw [splitListOn_no_sep '/' sp.data (fun c hc => (hsp c hc).1)]
    simp only [List.map_append, List.map_cons, List.map_nil]
  have hidx : (pre.map String.mk ++ ["agiles", a, sp]).findIdx?
      (fun s => eqIgnoreAsciiCase s "agiles") = some (pre.map String.mk).length := by
    rw [List.findIdx?_append]
    have h1 : (pre.map String.mk).findIdx? (fun s => eqIgnoreAsciiCase s "agiles") =
        none := by
      rw [List.findIdx?_eq_none_iff]
      intro x hx
      obtain ⟨seg, hseg, rfl⟩ := List.mem_map.mp hx
      exact hnoag seg hseg
    have h2 : (["agiles", a, sp] : List String).findIdx?
        (fun s => eqIgnoreAsciiCase s "agiles") = some 0 := by
      rw [List.findIdx?_cons, if_pos (by decide)]
    rw [h1, h2]
    simp
  have hget1 : (pre.map String.mk ++ ["agiles", a, sp])[(pre.map String.mk).length + 1]? =
      some a := by
    rw [List.getElem?_append_right (by omega)]
    have : (pre.map String.mk).length + 1 - (pre.map String.mk).length = 1 := by omega
    rw [this]
    rfl
  have hget2 : (pre.map String.mk ++ ["agiles", a, sp])[(pre.map String.mk).length + 2]? =
      some sp := by
    rw [List.getElem?_append_right (by omega)]
    have : (pre.map String.mk).length + 2 - (pre.map String.mk).length = 2 := by omega
    rw [this]
    rfl
  have htake : (pre.map String.mk ++ ["agiles", a, sp]).take (pre.map String.mk).length =
      pre.map String.mk := List.take_left _ _
  rw [parse_board_url_some_iff]
  refine ⟨Url.mk us uh (up ++ ("agiles/" ++ a ++ "/" ++ sp)) none none,
    (pre.map String.mk).length, a, sp, hparse, ?_, ?_, ?_, ?_⟩
  · rw [hsegs]; exact hidx
  · rw [hsegs]; exact hget1
  · rw [hsegs]; exact hget2
  · rw [hsegs, htake]
    have hpp := prePath_eq pre up hpath
    refine Prod.ext ?_ rfl
    show Url.mk us uh up none none = _
    rw [hpp]

theorem C8_board_url_equals_direct_witness :
    ("/youtrack/" : String).data =
      '/' :: joinSlashC [['y', 'o', 'u', 't', 'r', 'a', 'c', 'k']] ∧
    (parse_board_url ((Url.mk "https" "host" "/youtrack/" none none).asStr ++
        ("agiles/" ++ "65-52" ++ "/" ++ "66-155467")) =
      some (Url.mk "https" "host" "/youtrack/" none none, "65-52", "66-155467") ∧
     normalize_base_url (Url.mk "https" "host" "/youtrack/" none none) =
      some (Url.mk "https" "host" "/youtrack/" none none)) :=
  ⟨by decide,
    C8_board_url_equals_direct (Url.mk "https" "host" "/youtrack/" none none)
      "65-52" "66-155467" [['y', 'o', 'u', 't', 'r', 'a', 'c', 'k']]
      (by decide) (by decide) (by decide) (by decide) rfl rfl (by decide)
      (by decide) (by decide) (by decide) (by decide)⟩

/-! ## Error propagation (C9) -/

/-- One unfolding step of the per-issue loop with arbitrary store
operations. -/
theorem sync_loop_cons (find : Store → Nat → String → Except String (Option Task))
    (create : Store → CreateTask → Except String Store)
    (pid : Nat) (base : Url) (dry : Bool) (i : YouTrackIssue)
    (rest : List YouTrackIssue) (acc : SyncAcc) :
    sync_loop find create pid base dry (i :: rest) acc =
      match find acc.store pid ( issue_title_prefix i.id_readable) with
      | .error e => (acc, some e)
      | .ok (some _) =>
        sync_loop find create pid base dry rest
          { acc with skipped_existing := acc.skipped_existing + 1 }
      | .ok none =>
        if dry then
          sync_loop find create pid base dry rest
            { acc with
                created := acc.created + 1
                created_titles :=
                  acc.created_titles ++ [(build_payload pid base i).title]
                created_ids := acc.created_ids ++ [i.id_readable] }
        else
          match create acc.store (build_payload pid base i) with
          | .error e => (acc, some e)
          | .ok s' =>
            sync_loop find create pid base dry rest
              { acc with
                  store := s'
                  created := acc.created + 1
                  created_titles :=
                    acc.created_titles ++ [(build_payload pid base i).title]
                  created_ids := acc.created_ids ++ [i.id_readable] } := rfl

/-- The loop processes a concatenation by processing the first part and,
only when it did not fail, continuing with the second from where it left
off: the first failing operation aborts everything after it. -/
theorem sync_loop_append (find : Store → Nat → String → Except String (Option Task))
    (create : Store → CreateTask → Except String Store)
    (pid : Nat) (base : Url) (dry : Bool) :
    ∀ (xs ys : List YouTrackIssue) (acc : SyncAcc),
      sync_loop find create pid base dry (xs ++ ys) acc =
        match sync_loop find create pid base dry xs acc with
        | (acc₁, none) => sync_loop find create pid base dry ys acc₁
        | (acc₁, some e) => (acc₁, some e) := by
  intro xs
  induction xs with
  | nil => intro ys acc; rfl
  | cons i xs ih =>
    intro ys acc
    rw [List.cons_append, sync_loop_cons, sync_loop_cons]
    cases find acc.store pid ( issue_title_prefix i.id_readable) with
    | error e => rfl
    | ok r =>
      cases r with
      | some t => exact ih ys _
      | none =>
        by_cases hd : dry = true
        · rw [if_pos hd, if_pos hd]
          exact ih ys _
        · rw [if_neg hd, if_neg hd]
          cases create acc.store (build_payload pid base i) with
          | error e => rfl
          | ok s' => exact ih ys _

/-- Any run of the loop whose create operation only ever appends tasks
leaves the initial tasks (and all tasks committed before a failure) in the
resulting store. -/
theorem sync_loop_commits (find : Store → Nat → String → Except String (Option Task))
    (create : Store → CreateTask → Except String Store)
    (pid : Nat) (base : Url) (dry : Bool)
    (hcommit : ∀ s ct s', create s ct = .ok s' → ∃ t, s'.tasks = s.tasks ++ [t]) :
    ∀ (issues : List YouTrackIssue) (acc : SyncAcc),
      ∃ new, (sync_loop find create pid base dry issues acc).1.store.tasks =
        acc.store.tasks ++ new := by
  intro issues
  induction issues with
  | nil => intro acc; exact ⟨[], by simp [sync_loop]⟩
  | cons i rest ih =>
    intro acc
    rw [sync_loop_cons]
    cases find acc.store pid ( issue_title_prefix i.id_readable) with
    | error e => exact ⟨[], by simp⟩
    | ok r =>
      cases r with
      | some t => exact ih _
      | none =>
        by_cases hd : dry = true
        · rw [if_pos hd]
          exact ih _
        · rw [if_neg hd]
          cases hc : create acc.store (build_payload pid base i) with
          | error e => exact ⟨[], by simp⟩
          | ok s' =>
            obtain ⟨t, ht⟩ := hcommit _ _ _ hc
            obtain ⟨new, hnew⟩ := ih
              { acc with
                  store := s'
                  created := acc.created + 1
                  created_titles :=
                    acc.created_titles ++ [(build_payload pid base i).title]
                  created_ids := acc.created_ids ++ [i.id_readable] }
            refine ⟨[t] ++ new, ?_⟩
            rw [hnew]
            simp only []
            rw [ht, List.append_assoc]

/-- C9: every failure aborts the whole invocation with no retry — a failed
page request aborts before any store access with the store unchanged; a
failed store lookup or task creation stops the loop at that issue, no
further issues are processed, and the store keeps everything committed
before the failure; the pagination loop never requests the same offset
twice. -/
theorem C9_failures_abort :
    (∀ (find : Store → Nat → String → Except String (Option Task))
        (create : Store → CreateTask → Except String Store)
        (page : Nat → Except String (List YouTrackIssue)) (fuel : Nat)
        (store : Store) (pid : Nat) (base : Url) (agi spi sf ov : String)
        (dry : Bool) (nbase : Url) (e : String) (log : List Nat),
      normalize_base_url base = some nbase →
      fetch_sprint_issues page fuel = (some (.error e), log) →
      sync_open_sprint_issues_to_todo find create page fuel store pid base
        agi spi sf ov dry = (store, .failed e, [])) ∧
    (∀ (find : Store → Nat → String → Except String (Option Task))
        (create : Store → CreateTask → Except String Store)
        (pid : Nat) (base : Url) (dry : Bool) (xs ys : List YouTrackIssue)
        (acc : SyncAcc),
      sync_loop find create pid base dry (xs ++ ys) acc =
        match sync_loop find create pid base dry xs acc with
        | (acc₁, none) => sync_loop find create pid base dry ys acc₁
        | (acc₁, some e) => (acc₁, some e)) ∧
    (∀ (find : Store → Nat → String → Except String (Option Task))
        (create : Store → CreateTask → Except String Store)
        (pid : Nat) (base : Url) (dry : Bool) (i : YouTrackIssue)
        (ys : List YouTrackIssue) (acc : SyncAcc) (e : String),
      find acc.store pid ( issue_title_prefix i.id_readable) = .error e →
      sync_loop find create pid base dry (i :: ys) acc = (acc, some e)) ∧
    (∀ (find : Store → Nat → String → Except String (Option Task))
        (create : Store → CreateTask → Except String Store)
        (pid : Nat) (base : Url) (i : YouTrackIssue)
        (ys : List YouTrackIssue) (acc : SyncAcc) (e : String),
      find acc.store pid ( issue_title_prefix i.id_readable) = .ok none →
      create acc.store (build_payload pid base i) = .error e →
      sync_loop find create pid base false (i :: ys) acc = (acc, some e)) ∧
    (∀ (find : Store → Nat → String → Except String (Option Task))
        (create : Store → CreateTask → Except String Store)
        (pid : Nat) (base : Url) (dry : Bool),
      (∀ s ct s', create s ct = .ok s' → ∃ t, s'.tasks = s.tasks ++ [t]) →
      ∀ (issues : List YouTrackIssue) (acc : SyncAcc),
        ∃ new, (sync_loop find create pid base dry issues acc).1.store.tasks =
          acc.store.tasks ++ new) ∧
    (∀ (page : Nat → Except String (List YouTrackIssue)) (fuel : Nat),
      List.Pairwise (· < ·) (fetch_sprint_issues page fuel).2) ∧
    (∀ (find : Store → Nat → String → Except String (Option Task))
        (create : Store → CreateTask → Except String Store)
        (page : Nat → Except String (List YouTrackIssue)) (fuel : Nat)
        (store : Store) (pid : Nat) (base : Url) (agi spi sf ov : String)
        (dry : Bool) (nbase : Url) (issues : List YouTrackIssue) (log : List Nat)
        (acc₁ : SyncAcc) (e : String),
      normalize_base_url base = some nbase →
      fetch_sprint_issues page fuel = (some (.ok issues), log) →
      sync_loop find create pid nbase dry
          (issues.filter (fun i => is_open_issue i sf ov))
          { store := store, created := 0, skipped_existing := 0
            created_titles := [], created_ids := [] } = (acc₁, some e) →
      sync_open_sprint_issues_to_todo find create page fuel store pid base
        agi spi sf ov dry = (acc₁.store, .failed e, acc₁.created_ids)) := by
  refine ⟨?_, ?_, ?_, ?_, ?_, ?_, ?_⟩
  · intro find create page fuel store pid base agi spi sf ov dry nbase e log hn hf
    exact sync_fetch_error hn hf
  · intro find create pid base dry xs ys acc
    exact sync_loop_append find create pid base dry xs ys acc
  · intro find create pid base dry i ys acc e hfind
    rw [sync_loop_cons, hfind]
  · intro find create pid base i ys acc e hfind hcreate
    rw [sync_loop_cons, hfind]
    simp only [Bool.false_eq_true, if_false, hcreate]
  · intro find create pid base dry hcommit issues acc
    exact sync_loop_commits find create pid base dry hcommit issues acc
  · intro page fuel
    exact (fetch_go_log_increasing page 100 (by omega) fuel 0).1
  · intro find create page fuel store pid base agi spi sf ov dry nbase issues log
      acc₁ e hn hf hloop
    unfold sync_open_sprint_issues_to_todo
    rw [hn, hf]
    simp only [hloop]

def failPage : Nat → Except String (List YouTrackIssue) := fun _ => .error "boom"

def failFind : Store → Nat → String → Except String (Option Task) :=
  fun _ _ _ => .error "db down"

theorem C9_failures_abort_witness :
    normalize_base_url exBase = some exBase ∧
    fetch_sprint_issues failPage 3 = (some (.error "boom"), [0]) ∧
    sync_open_sprint_issues_to_todo okFind okCreate failPage 3 exStore 7 exBase
      "a" "sp" "State" "Open" false = (exStore, .failed "boom", []) ∧
    failFind exStore 7 ( issue_title_prefix "ABC-1") = .error "db down" ∧
    sync_loop failFind okCreate 7 exBase false (exIssueOpen :: [])
      { store := exStore, created := 0, skipped_existing := 0
        created_titles := [], created_ids := [] } =
      ({ store := exStore, created := 0, skipped_existing := 0
         created_titles := [], created_ids := [] }, some "db down") ∧
    List.Pairwise (· < ·) (fetch_sprint_issues exPage 2).2 :=
  ⟨by rfl, by rfl,
    C9_failures_abort.1 okFind okCreate failPage 3 exStore 7 exBase
      "a" "sp" "State" "Open" false exBase "boom" [0] (by rfl) (by rfl),
    by rfl,
    C9_failures_abort.2.2.1 failFind okCreate 7 exBase false exIssueOpen []
      { store := exStore, created := 0, skipped_existing := 0
        created_titles := [], created_ids := [] } "db down" (by rfl),
    C9_failures_abort.2.2.2.2.2.1 exPage 2⟩

end VK
